import Mathlib

/-!
Verification development for the rule-based natural-language meaning
processor (X-Bar NLP analyzer).  The definitions below are a shallow
embedding of the JavaScript sources:

  * `src/core/types.js`      : POS, PhraseType, XBarLevel, SemanticRole, ...
  * `src/core/token.js`      : class Token
  * `src/parser/xbar-node.js`: class XBarNode (tree, serialization)
  * `src/parser/phrase-builder.js`: findHead, findSpecifier, buildNP, ...
  * `src/parser/patterns.js` : the four sentence patterns, matchPattern
  * `src/semantic/meaning.js`: Entity, Predicate, MeaningRepresentation
  * `src/semantic/extractor.js`: SemanticExtractor
  * `src/semantic/validator.js`: SemanticValidator

JavaScript's ambient nondeterminism (`Date.now()` / `Math.random()` inside
`Entity.generateId`) is modelled by threading an explicit id source
`ids : Nat → String` together with a counter through the extractor.  The
runtime exception raised by the self-referential destructuring in `buildVP`
(`const { token: headToken, index: headIndex } = headToken;`, a
temporal-dead-zone ReferenceError) is modelled with `Except JsError`.
-/

/-- Part-of-speech tags, from `src/core/types.js` (`POS`). -/
inductive POS where
  | NOUN | VERB | ADJECTIVE | ADVERB | DETERMINER | PREPOSITION
  | CONJUNCTION | AUXILIARY | COPULA | PRONOUN | UNKNOWN
  | POSSESSIVE
deriving DecidableEq, Repr

/-- Phrase categories, from `src/core/types.js` (`PhraseType`). -/
inductive PhraseType where
  | NP | VP | AP | AdvP | PP | TP | CP | DP
deriving DecidableEq, Repr

/-- X-Bar node levels, from `src/core/types.js` (`XBarLevel`):
`X` (head), `X'` (bar) and `XP` (maximal projection). -/
inductive XBarLevel where
  | X | XBar | XP
deriving DecidableEq, Repr

/-- Semantic roles, from `src/core/types.js` (`SemanticRole`). -/
inductive SemanticRole where
  | AGENT | PATIENT | THEME | EXPERIENCER | RECIPIENT | SOURCE | GOAL
  | LOCATION | TIME | INSTRUMENT | CAUSE | PROPERTY | NONE
deriving DecidableEq, Repr

/-- Predicate kinds, from `src/core/types.js` (`PredicateType`). -/
inductive PredicateType where
  | IS_A | HAS_PROPERTY | DOES | IS_LOCATED | HAS | UNKNOWN
deriving DecidableEq, Repr

/-- Sentence kinds, from `src/core/types.js` (`SentenceType`). -/
inductive SentenceType where
  | DECLARATIVE | INTERROGATIVE | IMPERATIVE | EXCLAMATORY | UNKNOWN
deriving DecidableEq, Repr

/-- Values stored inside a feature bag.  The JS sources use open
string-keyed objects whose values are strings, booleans or string arrays
(for example `number`, `tense`, `transitive`, `modifiers`). -/
inductive FeatVal where
  | str (v : String)
  | boolean (v : Bool)
  | strs (v : List String)
deriving DecidableEq, Repr

/-- A feature bag: an insertion-ordered list of key-value pairs, mirroring
a JS object used as a dictionary. -/
abbrev Features := List (String × FeatVal)

/-- JS object property read, `obj[key]` (first binding wins: keys are
unique by construction of `featSet`). -/
def featGet (fs : Features) (k : String) : Option FeatVal :=
  (fs.find? (fun p => p.1 = k)).map (·.2)

/-- JS object property write `obj[key] = v`: replaces the value in place if
the key is present, otherwise appends the new key. -/
def featSet (fs : Features) (k : String) (v : FeatVal) : Features :=
  if fs.any (fun p => p.1 = k) then
    fs.map (fun p => if p.1 = k then (k, v) else p)
  else
    fs ++ [(k, v)]

/-- An affix record stripped from a token (`StrippedAffix` in
`src/core/token.js`); carried opaquely by the claims below. -/
structure StrippedAffix where
  affix : String
  affixKind : String
  meaning : String
deriving DecidableEq, Repr

/-- A dictionary entry attached to a token after POS tagging
(`LexicalEntry` in `src/lexicon/dictionary.js`), restricted to the fields
the modelled operations read (`categories`, `features`, `lemma`, `pos`). -/
structure LexEntry where
  lemmaText : String
  pos : POS
  categories : List String
  features : Features
deriving DecidableEq, Repr

/-- Tagged token, from `src/core/token.js` (class `Token`).  The
constructor invariant `normalized = text.toLowerCase()` is recorded as a
hypothesis where needed; `jsToLower` models `String.prototype.toLowerCase`. -/
structure Token where
  text : String
  normalized : String
  startIndex : Nat
  endIndex : Nat
  lemmaText : Option String
  pos : POS
  features : Features
  strippedAffixes : List StrippedAffix
  base : Option String
  position : Int
  found : Bool
  lexicalEntry : Option LexEntry
deriving DecidableEq, Repr

/-- Model of `String.prototype.toLowerCase` used by the `Token`
constructor. -/
def jsToLower (s : String) : String := s.toLower

/-- Creates a token the way `new Token({text, startIndex, endIndex, lemma,
pos, features})` does: `normalized` is recomputed, bookkeeping fields take
their defaults. -/
def Token.create (text : String) (startIndex endIndex : Nat)
    (lem : Option String) (pos : POS) (features : Features) : Token :=
  { text := text
    normalized := jsToLower text
    startIndex := startIndex
    endIndex := endIndex
    lemmaText := lem
    pos := pos
    features := features
    strippedAffixes := []
    base := none
    position := -1
    found := false
    lexicalEntry := none }

/-- Effective lemma of a token (`Token.getEffectiveLemma`): the lemma if
set, else the affix-stripping base, else the normalized text. -/
def Token.getEffectiveLemma (t : Token) : String :=
  match t.lemmaText with
  | some l => l
  | none => match t.base with
            | some b => b
            | none => t.normalized

/-- Reads a grammatical feature from a token (`Token.getFeature`). -/
def Token.getFeature (t : Token) (k : String) : Option FeatVal :=
  featGet t.features k

/-- X-Bar tree node, from `src/parser/xbar-node.js` (class `XBarNode`).
The non-owning parent back-reference `_parent` is not modelled (it is used
only for upward navigation and is explicitly ignored by the structural
equality of the serialization spec).  The `semantic` object only ever
holds a `role` entry in this code base, so it is modelled as
`Option SemanticRole` (`none` corresponds to the empty object `{}`). -/
inductive XBarNode where
  | mk (type : XBarLevel) (category : PhraseType) (headToken : Option Token)
       (complement : Option XBarNode) (specifier : Option XBarNode)
       (adjuncts : List XBarNode) (semantic : Option SemanticRole)

/-- Node level accessor (`node.type`). -/
def XBarNode.type : XBarNode → XBarLevel
  | .mk t _ _ _ _ _ _ => t

/-- Category accessor (`node.category`). -/
def XBarNode.category : XBarNode → PhraseType
  | .mk _ c _ _ _ _ _ => c

/-- Head-token accessor (`node.headToken`). -/
def XBarNode.headToken : XBarNode → Option Token
  | .mk _ _ h _ _ _ _ => h

/-- Complement accessor (`node.complement`). -/
def XBarNode.complement : XBarNode → Option XBarNode
  | .mk _ _ _ c _ _ _ => c

/-- Specifier accessor (`node.specifier`). -/
def XBarNode.specifier : XBarNode → Option XBarNode
  | .mk _ _ _ _ s _ _ => s

/-- Adjunct-list accessor (`node.adjuncts`). -/
def XBarNode.adjuncts : XBarNode → List XBarNode
  | .mk _ _ _ _ _ a _ => a

/-- Semantic-role accessor (`node.semantic.role`). -/
def XBarNode.semantic : XBarNode → Option SemanticRole
  | .mk _ _ _ _ _ _ r => r

/-- Returns the node with its semantic role overwritten
(`node.semantic.role = r`). -/
def XBarNode.withRole : XBarNode → SemanticRole → XBarNode
  | .mk t c h comp spec adjs _, r => .mk t c h comp spec adjs (some r)

/-- Head-locating method `XBarNode.findHead` from `src/parser/xbar-node.js`:
returns the node carrying the head token, following bar-level complements. -/
def XBarNode.findHeadNode : XBarNode → XBarNode
  | n@(.mk ty _ ht comp _ _ _) =>
    if ty = XBarLevel.X then n
    else if ht.isSome then n
    else
      match comp with
      | some c => if c.type = XBarLevel.XBar then c.findHeadNode else n
      | none => n

/-- Head-token method `XBarNode.getHeadToken`. -/
def XBarNode.getHeadToken (n : XBarNode) : Option Token :=
  n.findHeadNode.headToken

mutual

/-- All nodes of a tree in the pre-order used by `XBarNode.traverse`
(self, specifier, complement, adjuncts). -/
def XBarNode.nodesOf : XBarNode → List XBarNode
  | n@(.mk _ _ _ comp spec adjs _) =>
    n :: (XBarNode.nodesOpt spec ++ XBarNode.nodesOpt comp ++ XBarNode.nodesList adjs)

/-- Traversal of an optional child. -/
def XBarNode.nodesOpt : Option XBarNode → List XBarNode
  | none => []
  | some n => XBarNode.nodesOf n

/-- Traversal of an adjunct list. -/
def XBarNode.nodesList : List XBarNode → List XBarNode
  | [] => []
  | n :: ns => XBarNode.nodesOf n ++ XBarNode.nodesList ns

end

/-- Factory `XBarNode.createHead`: a terminal head (X) node wrapping a
token. -/
def XBarNode.createHead (token : Token) (category : PhraseType) : XBarNode :=
  .mk XBarLevel.X category (some token) none none [] none

/-- Factory `XBarNode.createBar`: an X' node; when a head node is supplied
its head token is copied onto the bar. -/
def XBarNode.createBar (category : PhraseType) (head : Option XBarNode)
    (complement : Option XBarNode) : XBarNode :=
  let ht := match head with
            | some h => h.headToken
            | none => none
  .mk XBarLevel.XBar category ht complement none [] none

/-- Factory `XBarNode.createPhrase`: an XP node whose complement slot
holds the bar-level child. -/
def XBarNode.createPhrase (category : PhraseType) (bar : Option XBarNode)
    (specifier : Option XBarNode) : XBarNode :=
  .mk XBarLevel.XP category none bar specifier [] none

/-- Factory `XBarNode.createSimplePhrase`: the X → X' → XP chain for a
single head token. -/
def XBarNode.createSimplePhrase (token : Token) (category : PhraseType) : XBarNode :=
  let headNode := XBarNode.createHead token category
  let barNode := XBarNode.createBar category (some headNode) none
  XBarNode.createPhrase category (some barNode) none

/-- Factory `XBarNode.createPhraseWithSpecifier`. -/
def XBarNode.createPhraseWithSpecifier (headToken : Token) (category : PhraseType)
    (specifier : XBarNode) : XBarNode :=
  let headNode := XBarNode.createHead headToken category
  let barNode := XBarNode.createBar category (some headNode) none
  XBarNode.createPhrase category (some barNode) (some specifier)

/-- Factory `XBarNode.createPhraseWithComplement`. -/
def XBarNode.createPhraseWithComplement (headToken : Token) (category : PhraseType)
    (complement : XBarNode) : XBarNode :=
  let headNode := XBarNode.createHead headToken category
  let barNode := XBarNode.createBar category (some headNode) (some complement)
  XBarNode.createPhrase category (some barNode) none

/-- Factory `XBarNode.createFullPhrase`: specifier and complement. -/
def XBarNode.createFullPhrase (headToken : Token) (category : PhraseType)
    (specifier : XBarNode) (complement : XBarNode) : XBarNode :=
  let headNode := XBarNode.createHead headToken category
  let barNode := XBarNode.createBar category (some headNode) (some complement)
  XBarNode.createPhrase category (some barNode) (some specifier)

/-- Appends adjunct nodes to an XP (the `npNode.adjuncts.push(adjNode)`
loop in `buildNP`). -/
def XBarNode.withAdjuncts : XBarNode → List XBarNode → XBarNode
  | .mk t c h comp spec adjs r, more => .mk t c h comp spec (adjs ++ more) r

/-- Valid head POS per phrase type (`headPOSMap` in
`src/parser/phrase-builder.js`, `findHead`). -/
def headPOSMap (pt : PhraseType) : List POS :=
  match pt with
  | PhraseType.NP => [POS.NOUN, POS.PRONOUN]
  | PhraseType.VP => [POS.VERB]
  | PhraseType.AP => [POS.ADJECTIVE]
  | PhraseType.PP => [POS.PREPOSITION]
  | PhraseType.TP => [POS.AUXILIARY, POS.COPULA]
  | _ => []

/-- Index of the last element satisfying `p` (the right-to-left scan of
`findHead` returns the rightmost match). -/
def lastIdxWith (p : α → Bool) : List α → Option Nat
  | [] => none
  | a :: as =>
    match lastIdxWith p as with
    | some j => some (j + 1)
    | none => if p a then some 0 else none

/-- Index of the first element satisfying `p` (`Array.prototype.findIndex`). -/
def firstIdxWith (p : α → Bool) : List α → Option Nat
  | [] => none
  | a :: as => if p a then some 0 else (firstIdxWith p as).map (· + 1)

/-- Head finder from `src/parser/phrase-builder.js` (`findHead`): scans
right-to-left and returns the rightmost token whose POS is a valid head
for the phrase type, together with its index. -/
def findHead (tokens : List Token) (phraseType : PhraseType) : Option (Token × Nat) :=
  match lastIdxWith (fun t => (headPOSMap phraseType).contains t.pos) tokens with
  | none => none
  | some i =>
    match tokens[i]? with
    | some t => some (t, i)
    | none => none

/-- Valid specifier POS per phrase type (`specifierPOSMap` in
`src/parser/phrase-builder.js`, `findSpecifier`). -/
def specifierPOSMap (pt : PhraseType) : List POS :=
  match pt with
  | PhraseType.NP => [POS.DETERMINER, POS.POSSESSIVE]
  | PhraseType.VP => [POS.ADVERB]
  | PhraseType.AP => [POS.ADVERB]
  | _ => []

/-- Loop body of `findSpecifier`: walks the (index, token) pairs before the
head; collects valid specifiers, skips invalid ones while the accumulator
is empty, and breaks at the first invalid token once collection started. -/
def specScan (valid : List POS) : List (Nat × Token) → List (Nat × Token) → List (Nat × Token)
  | [], acc => acc
  | (i, t) :: rest, acc =>
    if valid.contains t.pos then specScan valid rest (acc ++ [(i, t)])
    else if acc.isEmpty then specScan valid rest acc
    else acc

/-- Specifier finder from `src/parser/phrase-builder.js` (`findSpecifier`):
returns the collected specifier tokens and their indices, or `none` when
nothing was collected or the head is at index 0. -/
def findSpecifier (tokens : List Token) (headIndex : Nat) (phraseType : PhraseType) :
    Option (List Token × List Nat) :=
  if headIndex = 0 then none
  else
    let valid := specifierPOSMap phraseType
    let collected := specScan valid (tokens.enum.take headIndex) []
    if collected.isEmpty then none
    else some (collected.map (·.2), collected.map (·.1))

/-- Result of a phrase build (`BuildResult` in
`src/parser/phrase-builder.js`); the `consumedTokens` bookkeeping field is
not modelled (no caller reads it). -/
structure BuildResult where
  node : Option XBarNode
  errors : List String

/-- Result of `findNP` / `findPP`: a built node (possibly `null`) plus the
number of tokens consumed. -/
structure FindResult where
  node : Option XBarNode
  consumedCount : Nat

mutual

/-- Noun-phrase builder from `src/parser/phrase-builder.js` (`buildNP`).
Locates the head noun, the determiner specifier, a PP complement after the
head, and attaches adjectives between specifier and head as AP adjuncts
with role `PROPERTY`. -/
def buildNP (tokens : List Token) : BuildResult :=
  if tokens.isEmpty then ⟨none, ["No tokens provided for NP"]⟩
  else
    match findHead tokens PhraseType.NP with
    | none => ⟨none, ["No noun found for NP head"]⟩
    | some (headToken, headIndex) =>
      let specifierInfo := findSpecifier tokens headIndex PhraseType.NP
      let specifierNode : Option XBarNode :=
        match specifierInfo with
        | some (specToks, _) =>
          match specToks.head? with
          | some detToken =>
            some ((XBarNode.createSimplePhrase detToken PhraseType.DP).withRole SemanticRole.NONE)
          | none => none
        | none => none
      let complementNode : Option XBarNode :=
        if _h : headIndex + 1 < tokens.length then
          match findPP (tokens.drop (headIndex + 1)) with
          | some fr => fr.node
          | none => none
        else none
      let startIdx : Nat :=
        match specifierInfo with
        | some (_, idxs) => (idxs.getLast?.getD 0) + 1
        | none => 0
      let adjectiveTokens :=
        ((tokens.take headIndex).drop startIdx).filter (fun t => t.pos = POS.ADJECTIVE)
      let npNode :=
        match specifierNode, complementNode with
        | some s, some c => XBarNode.createFullPhrase headToken PhraseType.NP s c
        | some s, none => XBarNode.createPhraseWithSpecifier headToken PhraseType.NP s
        | none, some c => XBarNode.createPhraseWithComplement headToken PhraseType.NP c
        | none, none => XBarNode.createSimplePhrase headToken PhraseType.NP
      let adjNodes := adjectiveTokens.map
        (fun a => (XBarNode.createSimplePhrase a PhraseType.AP).withRole SemanticRole.PROPERTY)
      ⟨some ((npNode.withAdjuncts adjNodes).withRole SemanticRole.NONE), []⟩
termination_by 2 * tokens.length + 1
decreasing_by simp [List.length_take, List.length_drop]; omega

/-- Greedy forward NP scan from `src/parser/phrase-builder.js` (`findNP`):
optional determiner, then adjectives, then a required noun or pronoun; a
bare leading noun/pronoun is the fallback. -/
def findNP (tokens : List Token) : Option FindResult :=
  match tokens with
  | [] => none
  | t0 :: rest =>
    let detCount : Nat := if t0.pos = POS.DETERMINER then 1 else 0
    let afterDet := (t0 :: rest).drop detCount
    let adjCount := (afterDet.takeWhile (fun t => t.pos = POS.ADJECTIVE)).length
    let afterAdjs := afterDet.drop adjCount
    match afterAdjs.head? with
    | some n =>
      if n.pos = POS.NOUN ∨ n.pos = POS.PRONOUN then
        some ⟨(buildNP ((t0 :: rest).take (detCount + adjCount + 1))).node,
              detCount + adjCount + 1⟩
      else if t0.pos = POS.NOUN ∨ t0.pos = POS.PRONOUN then
        some ⟨(buildNP ((t0 :: rest).take 1)).node, 1⟩
      else none
    | none =>
      if t0.pos = POS.NOUN ∨ t0.pos = POS.PRONOUN then
        some ⟨(buildNP ((t0 :: rest).take 1)).node, 1⟩
      else none
termination_by 2 * tokens.length + 2
decreasing_by
  all_goals simp [List.length_take]
  all_goals omega

/-- Prepositional-phrase builder from `src/parser/phrase-builder.js`
(`buildPP`): head preposition plus an NP complement (role `LOCATION`). -/
def buildPP (tokens : List Token) : BuildResult :=
  if tokens.isEmpty then ⟨none, ["No tokens provided for PP"]⟩
  else
    match findHead tokens PhraseType.PP with
    | none => ⟨none, ["No preposition found for PP head"]⟩
    | some (headToken, headIndex) =>
      let complementNode : Option XBarNode :=
        if _h : headIndex + 1 < tokens.length then
          match findNP (tokens.drop (headIndex + 1)) with
          | some fr => fr.node
          | none => none
        else none
      match complementNode with
      | some c =>
        let cWithRole := c.withRole SemanticRole.LOCATION
        ⟨some ((XBarNode.createPhraseWithComplement headToken PhraseType.PP cWithRole).withRole
            SemanticRole.LOCATION), []⟩
      | none =>
        ⟨some ((XBarNode.createSimplePhrase headToken PhraseType.PP).withRole
            SemanticRole.LOCATION), []⟩
termination_by 2 * tokens.length + 1
decreasing_by simp [List.length_drop]; omega

/-- Forward PP scan from `src/parser/phrase-builder.js` (`findPP`): a
leading preposition followed by an NP found by `findNP`. -/
def findPP (tokens : List Token) : Option FindResult :=
  match tokens with
  | [] => none
  | t0 :: rest =>
    if t0.pos = POS.PREPOSITION then
      let consumed : Nat :=
        match findNP rest with
        | some nr => 1 + nr.consumedCount
        | none => 1
      some ⟨(buildPP ((t0 :: rest).take consumed)).node, consumed⟩
    else none
termination_by 2 * tokens.length + 2
decreasing_by
  all_goals simp [List.length_take]
  all_goals omega

end

/-- Adjective-phrase builder from `src/parser/phrase-builder.js`
(`buildAP`): head adjective, optional degree-adverb specifier, optional PP
complement; the result carries role `PROPERTY`. -/
def buildAP (tokens : List Token) : BuildResult :=
  if tokens.isEmpty then ⟨none, ["No tokens provided for AP"]⟩
  else
    match findHead tokens PhraseType.AP with
    | none => ⟨none, ["No adjective found for AP head"]⟩
    | some (headToken, headIndex) =>
      let specifierNode : Option XBarNode :=
        match findSpecifier tokens headIndex PhraseType.AP with
        | some (specToks, _) =>
          match specToks.head? with
          | some advToken => some (XBarNode.createSimplePhrase advToken PhraseType.AdvP)
          | none => none
        | none => none
      let complementNode : Option XBarNode :=
        if headIndex + 1 < tokens.length then
          match findPP (tokens.drop (headIndex + 1)) with
          | some fr => fr.node
          | none => none
        else none
      let apNode :=
        match specifierNode, complementNode with
        | some s, some c => XBarNode.createFullPhrase headToken PhraseType.AP s c
        | some s, none => XBarNode.createPhraseWithSpecifier headToken PhraseType.AP s
        | none, some c => XBarNode.createPhraseWithComplement headToken PhraseType.AP c
        | none, none => XBarNode.createSimplePhrase headToken PhraseType.AP
      ⟨some (apNode.withRole SemanticRole.PROPERTY), []⟩

/-- Runtime exceptions escaping the core.  The only one reachable in the
modelled code is the temporal-dead-zone ReferenceError raised by
`buildVP`. -/
inductive JsError where
  | referenceError (msg : String)
deriving DecidableEq, Repr

/-- Verb-phrase builder from `src/parser/phrase-builder.js` (`buildVP`).
After `findHead` succeeds, line 389 executes
`const { token: headToken, index: headIndex } = headToken;` which reads
the `headToken` binding inside its own initializer: a temporal-dead-zone
ReferenceError is thrown, so the remainder of the function (complement
search, node assembly, lines 390-417) is unreachable. -/
def buildVP (tokens : List Token) : Except JsError BuildResult :=
  if tokens.isEmpty then .ok ⟨none, ["No tokens provided for VP"]⟩
  else
    match findHead tokens PhraseType.VP with
    | none => .ok ⟨none, ["No verb found for VP head"]⟩
    | some _ =>
      .error (JsError.referenceError "Cannot access headToken before initialization")

/-- Tense-phrase builder from `src/parser/phrase-builder.js` (`buildTP`):
wraps the subject as TP specifier (annotated `AGENT`) and the predicate
node as the complement of a T-bar whose head token is the tense marker. -/
def buildTP (subjectNP : Option XBarNode) (predicate : Option XBarNode)
    (tenseMarker : Option Token) : XBarNode :=
  let tBar : XBarNode := .mk XBarLevel.XBar PhraseType.TP tenseMarker predicate none [] none
  let subjectWithRole := subjectNP.map (fun s => s.withRole SemanticRole.AGENT)
  (XBarNode.mk XBarLevel.XP PhraseType.TP none (some tBar) subjectWithRole []
      none).withRole SemanticRole.NONE

/-- Shape predicate of the Action pattern (`ACTION_PATTERN.match` in
`src/parser/patterns.js`): at least two tokens, some noun/pronoun/
determiner, some verb, and the first token is not a verb. -/
def actionMatch (tokens : List Token) : Bool :=
  if tokens.length < 2 then false
  else
    let hasNoun := tokens.any (fun t =>
      t.pos = POS.NOUN ∨ t.pos = POS.PRONOUN ∨ t.pos = POS.DETERMINER)
    let hasVerb := tokens.any (fun t => t.pos = POS.VERB)
    hasNoun && hasVerb && decide ((tokens.head?.map (·.pos)) ≠ some POS.VERB)

/-- Shape predicate of the Property pattern (`PROPERTY_PATTERN.match` in
`src/parser/patterns.js`).  The scanning loop overwrites `copulaIndex` on
every copula it sees, so the recorded index is that of the last copula;
the adjective index is found with `findIndex`, hence the first
adjective. -/
def propertyMatch (tokens : List Token) : Bool :=
  if tokens.length < 3 then false
  else
    match lastIdxWith (fun t => t.pos = POS.COPULA) tokens,
          firstIdxWith (fun t => t.pos = POS.ADJECTIVE) tokens with
    | some copulaIndex, some adjIndex => decide (copulaIndex < adjIndex)
    | _, _ => false

/-- Shape predicate of the Identity pattern (`IDENTITY_PATTERN.match`):
a copula followed (not necessarily immediately) by a noun or pronoun, with
no adjective anywhere after the first copula. -/
def identityMatch (tokens : List Token) : Bool :=
  if tokens.length < 3 then false
  else
    match firstIdxWith (fun t => t.pos = POS.COPULA) tokens with
    | none => false
    | some copulaIndex =>
      if copulaIndex + 1 ≥ tokens.length then false
      else
        let afterCopula := tokens.drop (copulaIndex + 1)
        let hasNounAfter := afterCopula.any (fun t =>
          t.pos = POS.NOUN ∨ t.pos = POS.PRONOUN)
        let hasAdjAsPredicate := afterCopula.any (fun t => t.pos = POS.ADJECTIVE)
        hasNounAfter && !hasAdjAsPredicate

/-- Shape predicate of the Location pattern (`LOCATION_PATTERN.match`):
the token straight after the first copula is a preposition. -/
def locationMatch (tokens : List Token) : Bool :=
  if tokens.length < 3 then false
  else
    match firstIdxWith (fun t => t.pos = POS.COPULA) tokens with
    | none => false
    | some copulaIndex =>
      if copulaIndex + 1 ≥ tokens.length then false
      else
        match (tokens.drop (copulaIndex + 1)).head? with
        | some t => decide (t.pos = POS.PREPOSITION)
        | none => false

/-- Components of an Action clause (`ACTION_PATTERN.extractComponents`):
subject tokens before the first verb, the verb, object tokens after it
(`null` when empty). -/
structure ActionComponents where
  subject : List Token
  predicate : Token
  object : Option (List Token)

/-- Splits the token sequence at the first verb
(`ACTION_PATTERN.extractComponents`). -/
def actionExtractComponents (tokens : List Token) : Option ActionComponents :=
  match firstIdxWith (fun t => t.pos = POS.VERB) tokens with
  | none => none
  | some verbIndex =>
    match tokens[verbIndex]? with
    | none => none
    | some verbToken =>
      let objectTokens := tokens.drop (verbIndex + 1)
      some { subject := tokens.take verbIndex
             predicate := verbToken
             object := if objectTokens.isEmpty then none else some objectTokens }

/-- Components of a copular clause (`extractComponents` of the Property,
Identity and Location patterns all split at the first copula; the field
holding the post-copula tokens is named `predicate`, `object` or
`location` respectively but carries the same value). -/
structure CopularComponents where
  subject : List Token
  copula : Token
  afterCopula : List Token

/-- Splits the token sequence at the first copula. -/
def copularExtractComponents (tokens : List Token) : Option CopularComponents :=
  match firstIdxWith (fun t => t.pos = POS.COPULA) tokens with
  | none => none
  | some copulaIndex =>
    match tokens[copulaIndex]? with
    | none => none
    | some copulaToken =>
      some { subject := tokens.take copulaIndex
             copula := copulaToken
             afterCopula := tokens.drop (copulaIndex + 1) }

/-- Tree construction for the Action pattern
(`ACTION_PATTERN.buildTree`): subject NP, then VP over verb + object
tokens, then TP.  The `buildVP` call propagates the ReferenceError. -/
def actionBuildTree (c : ActionComponents) : Except JsError (Option XBarNode) := do
  let subjectResult := buildNP c.subject
  match subjectResult.node with
  | none => return none
  | some subjectNP =>
    let vpTokens := c.predicate :: (c.object.getD [])
    let vpResult ← buildVP vpTokens
    match vpResult.node with
    | none => return none
    | some vpNode => return some (buildTP (some subjectNP) (some vpNode) none)

/-- Tree construction for the Property pattern
(`PROPERTY_PATTERN.buildTree`): subject NP, AP over the post-copula
tokens, TP with the copula as tense marker. -/
def propertyBuildTree (c : CopularComponents) : Option XBarNode :=
  match (buildNP c.subject).node with
  | none => none
  | some subjectNP =>
    match (buildAP c.afterCopula).node with
    | none => none
    | some apNode => some (buildTP (some subjectNP) (some apNode) (some c.copula))

/-- Tree construction for the Identity pattern
(`IDENTITY_PATTERN.buildTree`): subject NP, object NP, TP with copula. -/
def identityBuildTree (c : CopularComponents) : Option XBarNode :=
  match (buildNP c.subject).node with
  | none => none
  | some subjectNP =>
    match (buildNP c.afterCopula).node with
    | none => none
    | some objectNP => some (buildTP (some subjectNP) (some objectNP) (some c.copula))

/-- Tree construction for the Location pattern
(`LOCATION_PATTERN.buildTree`): subject NP, PP, TP with copula. -/
def locationBuildTree (c : CopularComponents) : Option XBarNode :=
  match (buildNP c.subject).node with
  | none => none
  | some subjectNP =>
    match (buildPP c.afterCopula).node with
    | none => none
    | some ppNode => some (buildTP (some subjectNP) (some ppNode) (some c.copula))

/-- Names of the four built-in sentence patterns, in the fixed priority
order of `SENTENCE_PATTERNS`. -/
inductive PatternName where
  | Property | Identity | Location | Action
deriving DecidableEq, Repr

/-- Sentence type attached to a pattern (`pattern.sentenceType`): all four
built-in patterns are declarative. -/
def patternSentenceType (_p : PatternName) : SentenceType := SentenceType.DECLARATIVE

/-- Predicate type attached to a pattern (`pattern.predicateType`). -/
def patternPredicateType : PatternName → PredicateType
  | .Property => PredicateType.HAS_PROPERTY
  | .Identity => PredicateType.IS_A
  | .Location => PredicateType.IS_LOCATED
  | .Action => PredicateType.DOES

/-- Result of `matchPattern` (`PatternMatchResult` in
`src/parser/patterns.js`), without the `components` convenience field. -/
structure MatchResult where
  pattern : Option PatternName
  tree : Option XBarNode
  errors : List String

/-- Helper for one iteration of the `matchPattern` loop over a pattern
whose construction cannot throw: given the accumulated errors, either the
successful result or the new error list. -/
def tryCopularPattern (name : String) (matched : Bool)
    (extract : Option CopularComponents) (build : CopularComponents → Option XBarNode)
    (pat : PatternName) (errors : List String) : Option MatchResult × List String :=
  if matched then
    match extract with
    | none => (none, errors ++ [name ++ ": No copula found in " ++ name ++ " pattern"])
    | some comps =>
      match build comps with
      | some tree => (some ⟨some pat, some tree, []⟩, errors)
      | none => (none, errors ++ [name ++ ": Failed to build tree"])
  else (none, errors)

/-- Pattern matcher from `src/parser/patterns.js` (`matchPattern`): tries
Property, Identity, Location, then Action in order; the first pattern
whose shape matches and whose tree builds wins.  The Action pattern's
tree construction can throw (see `buildVP`), which propagates out of the
loop. -/
def matchPattern (tokens : List Token) : Except JsError MatchResult :=
  if tokens.isEmpty then
    .ok ⟨none, none, ["No tokens provided for pattern matching"]⟩
  else
    let (r1, e1) := tryCopularPattern "Property" (propertyMatch tokens)
      (copularExtractComponents tokens) propertyBuildTree PatternName.Property []
    match r1 with
    | some res => .ok res
    | none =>
      let (r2, e2) := tryCopularPattern "Identity" (identityMatch tokens)
        (copularExtractComponents tokens) identityBuildTree PatternName.Identity e1
      match r2 with
      | some res => .ok res
      | none =>
        let (r3, e3) := tryCopularPattern "Location" (locationMatch tokens)
          (copularExtractComponents tokens) locationBuildTree PatternName.Location e2
        match r3 with
        | some res => .ok res
        | none => do
          if actionMatch tokens then
            match actionExtractComponents tokens with
            | none =>
              let e4 := e3 ++ ["Action: No verb found in action pattern"]
              return ⟨none, none, if e4.isEmpty then ["No matching pattern found"] else e4⟩
            | some comps =>
              let tree? ← actionBuildTree comps
              match tree? with
              | some tree => return ⟨some PatternName.Action, some tree, []⟩
              | none =>
                let e4 := e3 ++ ["Action: Failed to build tree"]
                return ⟨none, none, if e4.isEmpty then ["No matching pattern found"] else e4⟩
          else
            return ⟨none, none, if e3.isEmpty then ["No matching pattern found"] else e3⟩

/-- Semantic participant, from `src/semantic/meaning.js` (class `Entity`).
The `id` field is produced by `generateId`, which reads `Date.now()` and
`Math.random()`; that ambient state is modelled by the id source threaded
through the extractor. -/
structure Entity where
  id : String
  text : String
  lemmaText : String
  categories : List String
  features : Features
  determiner : Option String
deriving DecidableEq, Repr

/-- Entity constructor semantics (`new Entity({text, lemma, categories,
features})` with no id supplied): the id is drawn from the id source, and
`lemma` falls back to `text.toLowerCase()` when the given lemma is the
empty string (JS falsiness). -/
def Entity.create (id text lem : String) (categories : List String)
    (features : Features) : Entity :=
  { id := id
    text := text
    lemmaText := if lem = "" then jsToLower text else lem
    categories := categories
    features := features
    determiner := none }

/-- Predicate record, from `src/semantic/meaning.js` (class `Predicate`).
The `argumentStructure` bag stays empty in every extractor path. -/
structure Predicate where
  text : String
  lemmaText : String
  type : PredicateType
  argumentStructure : Features
  features : Features
  negated : Bool
deriving DecidableEq, Repr

/-- Predicate constructor semantics (`new Predicate({text, lemma, type,
features})`). -/
def Predicate.create (text lem : String) (type : PredicateType)
    (features : Features) : Predicate :=
  { text := text
    lemmaText := if lem = "" then jsToLower text else lem
    type := type
    argumentStructure := []
    features := features
    negated := false }

/-- Transitivity test `Predicate.isTransitive`:
`features.transitive === true`. -/
def Predicate.isTransitive (p : Predicate) : Bool :=
  featGet p.features "transitive" = some (FeatVal.boolean true)

/-- Argument slot of the meaning's argument map: `Entity` or `Entity[]`. -/
inductive ArgVal where
  | one (e : Entity)
  | many (es : List Entity)
deriving DecidableEq, Repr

/-- The argument map of a meaning: a JS `Map` (insertion-ordered,
unique keys). -/
abbrev Args := List (SemanticRole × ArgVal)

/-- JS `Map.prototype.get`. -/
def argsGet (m : Args) (k : SemanticRole) : Option ArgVal :=
  (m.find? (fun p => p.1 = k)).map (·.2)

/-- JS `Map.prototype.set`: replaces the value in place when the key is
present, otherwise appends. -/
def argsSet (m : Args) (k : SemanticRole) (v : ArgVal) : Args :=
  if m.any (fun p => p.1 = k) then
    m.map (fun p => if p.1 = k then (k, v) else p)
  else
    m ++ [(k, v)]

/-- JS `Map.prototype.delete`. -/
def argsDelete (m : Args) (k : SemanticRole) : Args :=
  m.filter (fun p => ¬ p.1 = k)

/-- Sentence meaning, from `src/semantic/meaning.js`
(class `MeaningRepresentation`).  The constant `confidence = 1.0` field is
not modelled (floating point, never read by the modelled code). -/
structure MeaningRepresentation where
  type : SentenceType
  predicate : Option Predicate
  args : Args
  features : Features
deriving DecidableEq, Repr

/-- Method `MeaningRepresentation.setArgument`. -/
def MeaningRepresentation.setArgument (m : MeaningRepresentation)
    (role : SemanticRole) (v : ArgVal) : MeaningRepresentation :=
  { m with args := argsSet m.args role v }

/-- Method `MeaningRepresentation.getArgument` (returns `null` when the
role is unbound). -/
def MeaningRepresentation.getArgument (m : MeaningRepresentation)
    (role : SemanticRole) : Option ArgVal :=
  argsGet m.args role

/-- Method `MeaningRepresentation.setFeature`. -/
def MeaningRepresentation.setFeature (m : MeaningRepresentation)
    (k : String) (v : FeatVal) : MeaningRepresentation :=
  { m with features := featSet m.features k v }

/-- Method `MeaningRepresentation.getFeature`. -/
def MeaningRepresentation.getFeature (m : MeaningRepresentation)
    (k : String) : Option FeatVal :=
  featGet m.features k

/-- First entity of an argument slot (the `Array.isArray(x) ? x[0] : x`
idiom of `getSubject`). -/
def ArgVal.first : ArgVal → Option Entity
  | .one e => some e
  | .many es => es.head?

/-- Method `MeaningRepresentation.getSubject`: the AGENT if bound,
otherwise the THEME, otherwise `null`. -/
def MeaningRepresentation.getSubject (m : MeaningRepresentation) : Option Entity :=
  match argsGet m.args SemanticRole.AGENT with
  | some a => a.first
  | none =>
    match argsGet m.args SemanticRole.THEME with
    | some t => t.first
    | none => none

/-- Method `MeaningRepresentation.getAllEntities`: all entities of all
argument slots, in map insertion order. -/
def MeaningRepresentation.getAllEntities (m : MeaningRepresentation) : List Entity :=
  m.args.flatMap (fun p => match p.2 with
    | ArgVal.one e => [e]
    | ArgVal.many es => es)

/-- Truthiness of an optional feature value (the
`if (entry?.features?.transitive)` test in `extractFromVP`). -/
def featTruthy : Option FeatVal → Bool
  | some (FeatVal.boolean b) => b
  | some (FeatVal.str s) => s ≠ ""
  | some (FeatVal.strs _) => true
  | none => false

/-- Extracts an entity from an NP node
(`SemanticExtractor.extractFromNP`), drawing a fresh id from the id
source: head token text/lemma/categories/features, the determiner from
the specifier, and adjective adjunct texts as a `modifiers` feature.
Returns the new id counter. -/
def extractFromNP (node : XBarNode) (ids : Nat → String) (k : Nat) :
    Option Entity × Nat :=
  match node.getHeadToken with
  | none => (none, k)
  | some headToken =>
    let entity := Entity.create (ids k) headToken.text headToken.getEffectiveLemma
      (match headToken.lexicalEntry with
       | some le => le.categories
       | none => [])
      headToken.features
    let entity :=
      match node.specifier with
      | some sp =>
        match sp.getHeadToken with
        | some detToken =>
          if detToken.pos = POS.DETERMINER then { entity with determiner := some detToken.text }
          else entity
        | none => entity
      | none => entity
    let modifiers := node.adjuncts.filterMap (fun adjunct =>
      if adjunct.category = PhraseType.AP then
        (adjunct.getHeadToken).map (·.text)
      else none)
    let entity :=
      if modifiers.isEmpty then entity
      else { entity with features := featSet entity.features "modifiers" (FeatVal.strs modifiers) }
    (some entity, k + 1)

/-- Preposition-lemma-to-role table of
`SemanticExtractor.extractAdjunct`. -/
def prepRole (prep : String) : SemanticRole :=
  if prep = "to" ∨ prep = "toward" then SemanticRole.GOAL
  else if prep = "from" ∨ prep = "away" then SemanticRole.SOURCE
  else if prep = "with" ∨ prep = "using" then SemanticRole.INSTRUMENT
  else if prep = "at" ∨ prep = "in" ∨ prep = "on" ∨ prep = "under" ∨ prep = "over"
      ∨ prep = "near" then SemanticRole.LOCATION
  else if prep = "for" then SemanticRole.RECIPIENT
  else SemanticRole.LOCATION

/-- Processes one VP adjunct (`SemanticExtractor.extractAdjunct`): a PP
adjunct contributes an argument with the role given by `prepRole`; an
AdvP adjunct appends its head text to the `modifiers` sentence feature. -/
def extractAdjunct (node : XBarNode) (meaning : MeaningRepresentation)
    (ids : Nat → String) (k : Nat) : MeaningRepresentation × Nat :=
  if node.category = PhraseType.PP then
    match node.getHeadToken, node.complement with
    | some h, some comp =>
      match extractFromNP comp ids k with
      | (some ppObject, k') =>
        (meaning.setArgument (prepRole (jsToLower h.text)) (ArgVal.one ppObject), k')
      | (none, k') => (meaning, k')
    | _, _ => (meaning, k)
  else if node.category = PhraseType.AdvP then
    match node.getHeadToken with
    | some h =>
      let modifiers :=
        match meaning.getFeature "modifiers" with
        | some (FeatVal.strs l) => l
        | _ => []
      (meaning.setFeature "modifiers" (FeatVal.strs (modifiers ++ [h.text])), k)
    | none => (meaning, k)
  else (meaning, k)

/-- Folds `extractAdjunct` over the adjunct list (the `for` loop in
`extractFromVP`). -/
def extractAdjuncts (adjuncts : List XBarNode) (meaning : MeaningRepresentation)
    (ids : Nat → String) (k : Nat) : MeaningRepresentation × Nat :=
  match adjuncts with
  | [] => (meaning, k)
  | a :: rest =>
    let step := extractAdjunct a meaning ids k
    extractAdjuncts rest step.1 ids step.2

/-- Extracts predicate and arguments from a VP complement
(`SemanticExtractor.extractFromVP`): a `DOES` predicate from the head
verb (marked transitive when its dictionary entry says so), a `PATIENT`
from the complement NP, and the adjuncts via `extractAdjunct`. -/
def extractFromVP (node : XBarNode) (meaning : MeaningRepresentation)
    (ids : Nat → String) (k : Nat) : MeaningRepresentation × Nat :=
  match node.getHeadToken with
  | none => (meaning, k)
  | some headToken =>
    let pred := Predicate.create headToken.text headToken.getEffectiveLemma
      PredicateType.DOES headToken.features
    let pred :=
      if featTruthy ((headToken.lexicalEntry).bind (fun le => featGet le.features "transitive")) then
        { pred with features := featSet pred.features "transitive" (FeatVal.boolean true) }
      else pred
    let meaning := { meaning with predicate := some pred }
    match node.complement with
    | some comp =>
      match extractFromNP comp ids k with
      | (some objectEntity, k') =>
        extractAdjuncts node.adjuncts
          (meaning.setArgument SemanticRole.PATIENT (ArgVal.one objectEntity)) ids k'
      | (none, k') => extractAdjuncts node.adjuncts meaning ids k'
    | none => extractAdjuncts node.adjuncts meaning ids k

/-- Extracts a `HAS_PROPERTY` predicate from an AP complement
(`SemanticExtractor.extractFromAP`), recording a degree-adverb specifier
as the predicate's `degree` feature. -/
def extractFromAP (node : XBarNode) (meaning : MeaningRepresentation) :
    MeaningRepresentation :=
  match node.getHeadToken with
  | none => meaning
  | some headToken =>
    let pred := Predicate.create headToken.text headToken.getEffectiveLemma
      PredicateType.HAS_PROPERTY headToken.features
    let pred :=
      match node.specifier with
      | some sp =>
        match sp.getHeadToken with
        | some degreeToken =>
          if degreeToken.pos = POS.ADVERB then
            { pred with features := featSet pred.features "degree" (FeatVal.str degreeToken.text) }
          else pred
        | none => pred
      | none => pred
    { meaning with predicate := some pred }

/-- Extracts an `IS_A` predicate plus a `PROPERTY` argument from an NP
complement (`SemanticExtractor.extractIdentityPredicate`). -/
def extractIdentityPredicate (node : XBarNode) (meaning : MeaningRepresentation)
    (ids : Nat → String) (k : Nat) : MeaningRepresentation × Nat :=
  match node.getHeadToken with
  | none => (meaning, k)
  | some headToken =>
    let pred := Predicate.create headToken.text headToken.getEffectiveLemma
      PredicateType.IS_A headToken.features
    let meaning := { meaning with predicate := some pred }
    match extractFromNP node ids k with
    | (some valueEntity, k') =>
      (meaning.setArgument SemanticRole.PROPERTY (ArgVal.one valueEntity), k')
    | (none, k') => (meaning, k')

/-- Processes the T' child of the TP
(`SemanticExtractor.extractFromTBar`): records the tense feature from the
bar's head token and dispatches on the complement's category. -/
def extractFromTBar (node : XBarNode) (meaning : MeaningRepresentation)
    (ids : Nat → String) (k : Nat) : MeaningRepresentation × Nat :=
  let meaning :=
    match node.headToken with
    | some h =>
      meaning.setFeature "tense"
        (match h.getFeature "tense" with
         | some v => v
         | none => FeatVal.str "PRESENT")
    | none => meaning
  match node.complement with
  | some c =>
    if c.category = PhraseType.VP then extractFromVP c meaning ids k
    else if c.category = PhraseType.AP then (extractFromAP c meaning, k)
    else if c.category = PhraseType.NP then extractIdentityPredicate c meaning ids k
    else (meaning, k)
  | none => (meaning, k)

/-- Role-reassignment pass (`SemanticExtractor.assignRoles`): for a `DOES`
predicate the provisional `THEME` binding is deleted and re-entered under
`AGENT`; other predicate kinds leave the map unchanged. -/
def assignRoles (meaning : MeaningRepresentation) : MeaningRepresentation :=
  match meaning.predicate with
  | none => meaning
  | some pred =>
    if pred.type = PredicateType.DOES then
      match argsGet meaning.args SemanticRole.THEME with
      | some theme =>
        { meaning with
          args := argsSet (argsDelete meaning.args SemanticRole.THEME)
            SemanticRole.AGENT theme }
      | none => meaning
    else meaning

/-- Extracts a meaning from a TP node
(`SemanticExtractor.extractFromTP`): the specifier becomes the subject
entity provisionally bound to `THEME`, the complement is processed by
`extractFromTBar`, then `assignRoles` runs. -/
def extractFromTP (node : XBarNode) (ids : Nat → String) (k : Nat) :
    MeaningRepresentation × Nat :=
  let meaning : MeaningRepresentation :=
    { type := SentenceType.DECLARATIVE, predicate := none, args := [], features := [] }
  let step1 : MeaningRepresentation × Nat :=
    match node.specifier with
    | some sp =>
      match extractFromNP sp ids k with
      | (some subjectEntity, k') =>
        (meaning.setArgument SemanticRole.THEME (ArgVal.one subjectEntity), k')
      | (none, k') => (meaning, k')
    | none => (meaning, k)
  let step2 : MeaningRepresentation × Nat :=
    match node.complement with
    | some c => extractFromTBar c step1.1 ids step1.2
    | none => step1
  (assignRoles step2.1, step2.2)

/-- Category search `XBarNode.findByCategory` (pre-order, as
`traverse`). -/
def findByCategory (tree : XBarNode) (category : PhraseType) : List XBarNode :=
  (XBarNode.nodesOf tree).filter (fun n => n.category = category)

/-- Top-level extraction (`SemanticExtractor.extract`): requires a TP at
the root or somewhere in the tree, otherwise yields no meaning. -/
def extract (tree : XBarNode) (ids : Nat → String) (k : Nat) :
    Option MeaningRepresentation × Nat :=
  if tree.category = PhraseType.TP then
    let step := extractFromTP tree ids k
    (some step.1, step.2)
  else
    match findByCategory tree PhraseType.TP with
    | tp :: _ =>
      let step := extractFromTP tp ids k
      (some step.1, step.2)
    | [] => (none, k)

/-- Validator options (`SemanticValidator` constructor defaults). -/
structure ValidatorOptions where
  strictMode : Bool := false
  checkSelectionalRestrictions : Bool := true
  checkAgreement : Bool := true

/-- Validation message (`ValidationMessage` in
`src/semantic/validator.js`). -/
structure VMessage where
  mtype : String
  code : String
  message : String
  location : Option String := none
deriving DecidableEq, Repr

/-- Verb lemmas requiring an animate subject
(`SELECTIONAL_RESTRICTIONS.animate_subject`). -/
def animateSubjectVerbs : List String :=
  ["think", "believe", "know", "feel", "love", "hate", "want", "need", "say", "tell", "ask"]

/-- Verb lemmas requiring an animate object
(`SELECTIONAL_RESTRICTIONS.animate_object`). -/
def animateObjectVerbs : List String :=
  ["love", "hate", "tell", "ask", "persuade", "convince"]

/-- Verb lemmas requiring an inanimate object
(`SELECTIONAL_RESTRICTIONS.inanimate_object`). -/
def inanimateObjectVerbs : List String :=
  ["build", "construct", "destroy", "break", "fix"]

/-- Categories counted as animate
(`SELECTIONAL_RESTRICTIONS.animate_categories`). -/
def animateCategories : List String := ["person", "animal", "being"]

/-- Categories counted as inanimate
(`SELECTIONAL_RESTRICTIONS.inanimate_categories`). -/
def inanimateCategories : List String := ["object", "place", "substance", "abstract"]

/-- Lemma used for selectional lookup
(`predicate.lemma?.toLowerCase() || predicate.text.toLowerCase()`). -/
def Predicate.selLemma (p : Predicate) : String :=
  if p.lemmaText = "" then jsToLower p.text else jsToLower p.lemmaText

/-- Required-components check
(`SemanticValidator.checkRequiredComponents`), returning the error and
warning messages it pushes. -/
def checkRequiredComponents (m : MeaningRepresentation) (opts : ValidatorOptions) :
    List VMessage × List VMessage :=
  let predMsgs : List VMessage :=
    if m.predicate.isNone then
      [⟨"error", "MISSING_PREDICATE", "Meaning representation has no predicate", none⟩]
    else []
  let subjErr : List VMessage :=
    if m.getSubject.isNone ∧ opts.strictMode then
      [⟨"error", "MISSING_SUBJECT", "Meaning representation has no subject", none⟩]
    else []
  let subjWarn : List VMessage :=
    if m.getSubject.isNone ∧ ¬ opts.strictMode then
      [⟨"warning", "MISSING_SUBJECT", "Meaning representation has no subject", none⟩]
    else []
  let argWarn : List VMessage :=
    if m.args.isEmpty then
      [⟨"warning", "NO_ARGUMENTS", "Meaning representation has no arguments", none⟩]
    else []
  (predMsgs ++ subjErr, subjWarn ++ argWarn)

/-- Predicate-argument shape check
(`SemanticValidator.checkPredicateArgumentStructure`): warnings only. -/
def checkPredicateArgumentStructure (m : MeaningRepresentation) : List VMessage :=
  match m.predicate with
  | none => []
  | some pred =>
    match pred.type with
    | PredicateType.DOES =>
      (if (m.getArgument SemanticRole.AGENT).isNone
          ∧ (m.getArgument SemanticRole.THEME).isNone then
        [⟨"warning", "MISSING_AGENT",
          "Action predicate \"" ++ pred.text ++ "\" has no agent", none⟩]
      else []) ++
      (if pred.isTransitive ∧ (m.getArgument SemanticRole.PATIENT).isNone then
        [⟨"warning", "MISSING_PATIENT",
          "Transitive verb \"" ++ pred.text ++ "\" has no object/patient", none⟩]
      else [])
    | PredicateType.HAS_PROPERTY =>
      if (m.getArgument SemanticRole.THEME).isNone then
        [⟨"warning", "MISSING_THEME",
          "Property predicate \"" ++ pred.text ++ "\" has no theme", none⟩]
      else []
    | PredicateType.IS_A =>
      (if (m.getArgument SemanticRole.THEME).isNone then
        [⟨"warning", "MISSING_THEME", "Identity predicate has no theme (subject)", none⟩]
      else []) ++
      (if (m.getArgument SemanticRole.PROPERTY).isNone then
        [⟨"warning", "MISSING_VALUE", "Identity predicate has no value (predicate nominal)", none⟩]
      else [])
    | _ => []

/-- Single selectional-restriction check
(`SemanticValidator.checkSelectionalRestrictions`): `none` when valid,
otherwise the violation message.  An entity with no known category is
never flagged. -/
def checkSelRestriction (pred : Predicate) (argument : Entity) (role : SemanticRole) :
    Option String :=
  let predicateLemma := pred.selLemma
  let categories := argument.categories
  let isAnimate := categories.any (fun c => animateCategories.contains c)
  if (role = SemanticRole.AGENT ∨ role = SemanticRole.THEME)
      ∧ animateSubjectVerbs.contains predicateLemma
      ∧ ¬ isAnimate ∧ categories.length > 0 then
    some ("Predicate \"" ++ pred.text ++ "\" typically requires an animate subject, but \""
      ++ argument.text ++ "\" is not animate")
  else if role = SemanticRole.PATIENT ∧ animateObjectVerbs.contains predicateLemma
      ∧ ¬ isAnimate ∧ categories.length > 0 then
    some ("Predicate \"" ++ pred.text ++ "\" typically requires an animate object, but \""
      ++ argument.text ++ "\" is not animate")
  else if role = SemanticRole.PATIENT ∧ inanimateObjectVerbs.contains predicateLemma
      ∧ isAnimate ∧ ¬ categories.any (fun c => inanimateCategories.contains c) then
    some ("Predicate \"" ++ pred.text ++ "\" typically requires an inanimate object, but \""
      ++ argument.text ++ "\" is animate")
  else none

/-- Entity carried by an argument slot as the selectional checks see it:
a JS array passed where an entity is expected has `undefined` text and
categories, so it can never be flagged; it is mapped to `none` here. -/
def ArgVal.asEntity : ArgVal → Option Entity
  | .one e => some e
  | .many _ => none

/-- Selectional-restriction pass
(`SemanticValidator.checkAllSelectionalRestrictions`): produces warnings
only, for the subject (checked under the `AGENT` role) and the
`PATIENT`. -/
def checkAllSelectionalRestrictions (m : MeaningRepresentation) : List VMessage :=
  match m.predicate with
  | none => []
  | some pred =>
    let subjectArg :=
      match m.getArgument SemanticRole.AGENT with
      | some a => some a
      | none => m.getArgument SemanticRole.THEME
    let subjMsgs :=
      match subjectArg.bind ArgVal.asEntity with
      | some subject =>
        match checkSelRestriction pred subject SemanticRole.AGENT with
        | some msg =>
          [⟨"warning", "SELECTIONAL_VIOLATION", msg,
            some ("subject \"" ++ subject.text ++ "\"")⟩]
        | none => []
      | none => []
    let patMsgs :=
      match (m.getArgument SemanticRole.PATIENT).bind ArgVal.asEntity with
      | some patient =>
        match checkSelRestriction pred patient SemanticRole.PATIENT with
        | some msg =>
          [⟨"warning", "SELECTIONAL_VIOLATION", msg,
            some ("object \"" ++ patient.text ++ "\"")⟩]
        | none => []
      | none => []
    subjMsgs ++ patMsgs

/-- Display text of a feature value (used in agreement messages). -/
def featValText : FeatVal → String
  | FeatVal.str s => s
  | FeatVal.boolean b => if b then "true" else "false"
  | FeatVal.strs l => String.intercalate "," l

/-- Pairwise agreement check (`SemanticValidator.checkAgreement`):
mismatching truthy `number` or `person` features are invalid. -/
def checkAgreementPair (subject : Entity) (pred : Predicate) : Option String :=
  let subjectNumber := featGet subject.features "number"
  let predicateNumber := featGet pred.features "number"
  if featTruthy subjectNumber ∧ featTruthy predicateNumber
      ∧ subjectNumber ≠ predicateNumber then
    some ("Subject \"" ++ subject.text ++ "\" is "
      ++ jsToLower (featValText (subjectNumber.getD (FeatVal.str "")))
      ++ " but predicate is "
      ++ jsToLower (featValText (predicateNumber.getD (FeatVal.str ""))))
  else
    let subjectPerson := featGet subject.features "person"
    let predicatePerson := featGet pred.features "person"
    if featTruthy subjectPerson ∧ featTruthy predicatePerson
        ∧ subjectPerson ≠ predicatePerson then
      some "Subject and predicate person features do not agree"
    else none

/-- Agreement pass (`SemanticValidator.checkAllAgreement`): produces an
`AGREEMENT_ERROR` error on mismatch. -/
def checkAllAgreement (m : MeaningRepresentation) : List VMessage :=
  match m.getSubject, m.predicate with
  | some subject, some pred =>
    match checkAgreementPair subject pred with
    | some msg =>
      [⟨"error", "AGREEMENT_ERROR", msg, some "subject-predicate agreement"⟩]
    | none => []
  | _, _ => []

/-- Duplicate-entity scan of `checkSemanticConsistency`: one warning per
repeated (case-insensitive) entity text, in traversal order. -/
def duplicateEntityWarnings (entities : List Entity) : List VMessage :=
  (entities.foldl
    (fun (acc : List String × List VMessage) entity =>
      let key := jsToLower entity.text
      if acc.1.contains key then
        (acc.1 ++ [key],
         acc.2 ++ [⟨"warning", "DUPLICATE_ENTITY",
           "Entity \"" ++ entity.text ++ "\" appears multiple times", none⟩])
      else (acc.1 ++ [key], acc.2))
    ([], [])).2

/-- General consistency pass
(`SemanticValidator.checkSemanticConsistency`): duplicate entities, double
negation (negated predicate whose surface text starts with a negative
affix), and entities without categories — warnings only. -/
def checkSemanticConsistency (m : MeaningRepresentation) : List VMessage :=
  let entities := m.getAllEntities
  let dupMsgs := duplicateEntityWarnings entities
  let negMsgs :=
    match m.predicate with
    | some pred =>
      if pred.negated
          ∧ ((jsToLower pred.text).startsWith "un" ∨ (jsToLower pred.text).startsWith "dis"
            ∨ (jsToLower pred.text).startsWith "non" ∨ (jsToLower pred.text).startsWith "in"
            ∨ (jsToLower pred.text).startsWith "im") then
        [⟨"warning", "DOUBLE_NEGATION",
          "Predicate \"" ++ pred.text ++ "\" appears to have double negation", none⟩]
      else []
    | none => []
  let catMsgs := entities.flatMap (fun entity =>
    if entity.categories.isEmpty then
      [⟨"warning", "UNKNOWN_CATEGORY",
        "Entity \"" ++ entity.text ++ "\" has no semantic categories", none⟩]
    else [])
  dupMsgs ++ negMsgs ++ catMsgs

/-- Validation details (`details` of the validation result). -/
structure ValidationDetails where
  entityCount : Nat
  hasPredicate : Bool
  predicateType : Option PredicateType
deriving DecidableEq, Repr

/-- Validation result (`ValidationResult` in
`src/semantic/validator.js`). -/
structure ValidationResult where
  isValid : Bool
  errors : List VMessage
  warnings : List VMessage
  details : Option ValidationDetails
deriving DecidableEq, Repr

/-- Validator entry point (`SemanticValidator.validate`): a null meaning
short-circuits with a single fatal error; otherwise the five checks run
in order and `isValid` is exactly "no errors were produced". -/
def validate (opts : ValidatorOptions) (meaning : Option MeaningRepresentation) :
    ValidationResult :=
  match meaning with
  | none =>
    { isValid := false
      errors := [⟨"error", "NULL_MEANING", "No meaning representation provided", none⟩]
      warnings := []
      details := none }
  | some m =>
    let (e1, w1) := checkRequiredComponents m opts
    let w2 := checkPredicateArgumentStructure m
    let w3 := if opts.checkSelectionalRestrictions then checkAllSelectionalRestrictions m else []
    let e2 := if opts.checkAgreement then checkAllAgreement m else []
    let w4 := checkSemanticConsistency m
    let errors := e1 ++ e2
    let warnings := w1 ++ w2 ++ w3 ++ w4
    { isValid := errors.isEmpty
      errors := errors
      warnings := warnings
      details := some
        { entityCount := m.getAllEntities.length
          hasPredicate := m.predicate.isSome
          predicateType := m.predicate.map (·.type) } }

/-- Display name of a phrase type (the `PhraseType` string constants). -/
def phraseTypeName : PhraseType → String
  | PhraseType.NP => "NP"
  | PhraseType.VP => "VP"
  | PhraseType.AP => "AP"
  | PhraseType.AdvP => "AdvP"
  | PhraseType.PP => "PP"
  | PhraseType.TP => "TP"
  | PhraseType.CP => "CP"
  | PhraseType.DP => "DP"

/-- Head-category symbol of a phrase type (`getHeadCategory` in
`src/core/types.js`). -/
def getHeadCategory : PhraseType → String
  | PhraseType.NP => "N"
  | PhraseType.VP => "V"
  | PhraseType.AP => "A"
  | PhraseType.AdvP => "Adv"
  | PhraseType.PP => "P"
  | PhraseType.TP => "T"
  | PhraseType.CP => "C"
  | PhraseType.DP => "D"

/-- The ASCII apostrophe used in bar-level labels. -/
def barMark : String := String.singleton (Char.ofNat 39)

/-- Node label (`XBarNode.getLabel`). -/
def XBarNode.getLabel (n : XBarNode) : String :=
  match n.type with
  | XBarLevel.X =>
    match n.headToken with
    | some t => t.text
    | none => getHeadCategory n.category
  | XBarLevel.XBar => getHeadCategory n.category ++ barMark
  | XBarLevel.XP => phraseTypeName n.category

/-- Serialized form of a token (`Token.toJSON`): every field except the
transient `lexicalEntry` attachment. -/
structure TokenJSON where
  text : String
  normalized : String
  startIndex : Nat
  endIndex : Nat
  lemmaText : Option String
  pos : POS
  features : Features
  strippedAffixes : List StrippedAffix
  base : Option String
  position : Int
  found : Bool
deriving DecidableEq, Repr

/-- Method `Token.toJSON`. -/
def Token.toJSON (t : Token) : TokenJSON :=
  { text := t.text
    normalized := t.normalized
    startIndex := t.startIndex
    endIndex := t.endIndex
    lemmaText := t.lemmaText
    pos := t.pos
    features := t.features
    strippedAffixes := t.strippedAffixes
    base := t.base
    position := t.position
    found := t.found }

/-- Static method `Token.fromJSON`: goes through the constructor (which
recomputes `normalized` from `text` and leaves `lexicalEntry` null), then
restores the bookkeeping fields. -/
def Token.fromJSON (j : TokenJSON) : Token :=
  let t := Token.create j.text j.startIndex j.endIndex j.lemmaText j.pos j.features
  { t with
    strippedAffixes := j.strippedAffixes
    base := j.base
    position := j.position
    found := j.found }

/-- Serialized form of a tree node (`XBarNode.toJSON`): the `adjuncts`
key is present only when the list is non-empty, the `semantic` key only
when the semantic object is non-empty. -/
inductive NodeJSON where
  | mk (type : XBarLevel) (category : PhraseType) (label : String)
       (headToken : Option TokenJSON) (specifier : Option NodeJSON)
       (complement : Option NodeJSON) (adjuncts : Option (List NodeJSON))
       (semantic : Option SemanticRole)

mutual

/-- Method `XBarNode.toJSON`. -/
def XBarNode.toJSON : XBarNode → NodeJSON
  | n@(.mk ty cat ht comp spec adjs sem) =>
    NodeJSON.mk ty cat n.getLabel (ht.map Token.toJSON)
      (XBarNode.toJSONOpt spec) (XBarNode.toJSONOpt comp)
      (if adjs.isEmpty then none else some (XBarNode.toJSONList adjs))
      sem

/-- Serialization of an optional child. -/
def XBarNode.toJSONOpt : Option XBarNode → Option NodeJSON
  | none => none
  | some n => some (XBarNode.toJSON n)

/-- Serialization of an adjunct list. -/
def XBarNode.toJSONList : List XBarNode → List NodeJSON
  | [] => []
  | n :: ns => XBarNode.toJSON n :: XBarNode.toJSONList ns

end

mutual

/-- Static method `XBarNode.fromJSON`: rebuilds the node, deserializing
the head token with `Token.fromJSON`; a missing `adjuncts` key becomes the
empty list and a missing `semantic` key the empty object. -/
def XBarNode.fromJSON : NodeJSON → XBarNode
  | .mk ty cat _label ht spec comp adjs sem =>
    XBarNode.mk ty cat (ht.map Token.fromJSON)
      (XBarNode.fromJSONOpt comp) (XBarNode.fromJSONOpt spec)
      (match adjs with
       | some l => XBarNode.fromJSONList l
       | none => [])
      sem

/-- Deserialization of an optional child. -/
def XBarNode.fromJSONOpt : Option NodeJSON → Option XBarNode
  | none => none
  | some j => some (XBarNode.fromJSON j)

/-- Deserialization of an adjunct list. -/
def XBarNode.fromJSONList : List NodeJSON → List XBarNode
  | [] => []
  | j :: js => XBarNode.fromJSON j :: XBarNode.fromJSONList js

end

/-- Effect of a serialization round trip on a single token: the
constructor recomputes `normalized` and the `lexicalEntry` attachment is
not serialized. -/
def tokenRoundTripped (t : Token) : Token :=
  { t with normalized := jsToLower t.text, lexicalEntry := none }

mutual

/-- Applies a token transformation to every token of a tree. -/
def XBarNode.mapTokens (f : Token → Token) : XBarNode → XBarNode
  | .mk ty cat ht comp spec adjs sem =>
    XBarNode.mk ty cat (ht.map f) (XBarNode.mapTokensOpt f comp)
      (XBarNode.mapTokensOpt f spec) (XBarNode.mapTokensList f adjs) sem

/-- Token transformation on an optional child. -/
def XBarNode.mapTokensOpt (f : Token → Token) : Option XBarNode → Option XBarNode
  | none => none
  | some n => some (XBarNode.mapTokens f n)

/-- Token transformation on an adjunct list. -/
def XBarNode.mapTokensList (f : Token → Token) : List XBarNode → List XBarNode
  | [] => []
  | n :: ns => XBarNode.mapTokens f n :: XBarNode.mapTokensList f ns

end

/-- Dictionary entry for "man" (from `src/lexicon/entries/nouns.js`):
a person-category noun. -/
def manEntry : LexEntry :=
  { lemmaText := "man", pos := POS.NOUN, categories := ["person"], features := [] }

/-- Dictionary entry for "book": an object-category noun. -/
def bookEntry : LexEntry :=
  { lemmaText := "book", pos := POS.NOUN, categories := ["object"], features := [] }

/-- Dictionary entry for "apple": an object-category noun. -/
def appleEntry : LexEntry :=
  { lemmaText := "apple", pos := POS.NOUN, categories := ["object"], features := [] }

/-- Tagged token "The" (determiner). -/
def tokThe : Token := Token.create "The" 0 3 (some "the") POS.DETERMINER []

/-- Tagged token "man" (noun, person), with its dictionary entry attached
the way `Parser.tagPOS` does. -/
def tokMan : Token :=
  { Token.create "man" 4 7 (some "man") POS.NOUN [] with
    found := true, lexicalEntry := some manEntry }

/-- Tagged token "reads" (verb). -/
def tokReads : Token := Token.create "reads" 8 13 (some "read") POS.VERB []

/-- Tagged token "a" (determiner). -/
def tokA : Token := Token.create "a" 14 15 (some "a") POS.DETERMINER []

/-- Tagged token "book" (noun, object), with dictionary entry. -/
def tokBook : Token :=
  { Token.create "book" 16 20 (some "book") POS.NOUN [] with
    found := true, lexicalEntry := some bookEntry }

/-- Tagged token "apple" (noun, object), with dictionary entry. -/
def tokApple : Token :=
  { Token.create "apple" 4 9 (some "apple") POS.NOUN [] with
    found := true, lexicalEntry := some appleEntry }

/-- Tagged token "is" (copula). -/
def tokIs : Token := Token.create "is" 10 12 (some "be") POS.COPULA []

/-- Tagged token "red" (adjective). -/
def tokRed : Token := Token.create "red" 13 16 (some "red") POS.ADJECTIVE []

/-- The tagged token sequence of "The man reads a book"
(Determiner, Noun, Verb, Determiner, Noun). -/
def c1Tokens : List Token := [tokThe, tokMan, tokReads, tokA, tokBook]

/-- The ReferenceError thrown by line 389 of
`src/parser/phrase-builder.js`. -/
def tdzError : JsError :=
  JsError.referenceError "Cannot access headToken before initialization"

/-- The subject the extractor finds in the TP's specifier: the entity from
`extractFromNP`, wrapped as a single-entity argument slot. -/
def subjectArg (node : XBarNode) (ids : Nat → String) (k : Nat) : Option ArgVal :=
  match node.specifier with
  | some sp => ((extractFromNP sp ids k).1).map ArgVal.one
  | none => none

/-- Constant id source used to exercise the extractor on a concrete tree. -/
def c7Ids : Nat → String := fun _ => "e1"

/-- Concrete tense phrase: `buildTP` of a man-NP subject and a reads-VP
predicate, as the Action pattern would assemble them. -/
def c7Tree : XBarNode :=
  buildTP (some (XBarNode.createSimplePhrase tokMan PhraseType.NP))
    (some (XBarNode.createSimplePhrase tokReads PhraseType.VP)) none

/-- The `DOES` predicate the extractor derives from the reads-VP. -/
def c7Pred : Predicate :=
  Predicate.create "reads" "read" PredicateType.DOES tokReads.features

/-- Round-trip effect on a single token: the constructor recomputes
`normalized` from `text`, and `lexicalEntry` is dropped because
`Token.toJSON` never serializes it. -/
def tokenRoundTripPf (t : Token) :
    Token.fromJSON (Token.toJSON t) = tokenRoundTripped t := rfl

/-- No node of the tree carries the provisional `THEME` role. -/
def noTheme (n : XBarNode) : Prop :=
  ∀ m ∈ XBarNode.nodesOf n, m.semantic ≠ some SemanticRole.THEME

/-- The tagged token sequence of "The apple is red". -/
def c10Tokens : List Token := [tokThe, tokApple, tokIs, tokRed]

/-- The subject NP the builder produces for "The apple". -/
def c10SubjNP : XBarNode :=
  ((XBarNode.createPhraseWithSpecifier tokApple PhraseType.NP
      ((XBarNode.createSimplePhrase tokThe PhraseType.DP).withRole
        SemanticRole.NONE)).withAdjuncts []).withRole SemanticRole.NONE

/-- The tree the Property pattern builds for "The apple is red". -/
def c10Tree : XBarNode :=
  buildTP (some c10SubjNP)
    (some ((XBarNode.createSimplePhrase tokRed PhraseType.AP).withRole
      SemanticRole.PROPERTY)) (some tokIs)

/-- The match result for "The apple is red". -/
def c10Res : MatchResult := ⟨some PatternName.Property, some c10Tree, []⟩

/-- Blanks an entity's generated id (`Entity.generateId` reads `Date.now`
and `Math.random`, so the id is the only ambient-state-dependent field). -/
def eraseEntityId (e : Entity) : Entity := { e with id := "" }

/-- Id erasure on an argument slot. -/
def eraseArgVal : ArgVal → ArgVal
  | .one e => .one (eraseEntityId e)
  | .many es => .many (es.map eraseEntityId)

/-- Key-preserving id erasure on the argument map. -/
def eraseArgsIds (a : Args) : Args :=
  a.map (fun p => (p.1, eraseArgVal p.2))

/-- Id erasure on a whole meaning representation. -/
def eraseMeaningIds (m : MeaningRepresentation) : MeaningRepresentation :=
  { m with args := eraseArgsIds m.args }

/-- The meaning stage of `Parser.parse`: match a pattern, then run the
semantic extractor on the tree (`null` when no tree was built); the
ReferenceError from `buildVP` propagates. -/
def pipelineMeaning (tokens : List Token) (ids : Nat → String) (k : Nat) :
    Except JsError (Option MeaningRepresentation) :=
  match matchPattern tokens with
  | .error e => .error e
  | .ok res =>
    match res.tree with
    | some tree => .ok ((extract tree ids k).1)
    | none => .ok none

/-- C1: for the tagged tokens of "The man reads a book" the claimed
pipeline result (predicate kind `Does`, Agent "man", Patient "book",
`isValid`) is never produced: the Action pattern matches and its tree
construction calls `buildVP`, whose self-referential destructuring
(line 389 of `src/parser/phrase-builder.js`) throws a ReferenceError that
propagates out of `matchPattern`, so no tree, meaning or validation
result exists for this input. -/
theorem c1_action_pipeline_raises_reference_error :
    matchPattern c1Tokens = Except.error tdzError
    ∧ actionMatch c1Tokens = true := by
  constructor
  · simp [matchPattern, tryCopularPattern, propertyMatch, identityMatch, locationMatch,
      actionMatch, copularExtractComponents, actionExtractComponents, actionBuildTree,
      buildNP, buildVP, findHead, findSpecifier, specScan, lastIdxWith, firstIdxWith,
      headPOSMap, specifierPOSMap, c1Tokens, tokThe, tokMan, tokReads, tokA, tokBook,
      Token.create, manEntry, bookEntry, tdzError, Bind.bind, Except.bind]
  · simp [actionMatch, c1Tokens, tokThe, tokMan, tokReads, tokA, tokBook, Token.create]

/-- C2: an empty token sequence is indeed reported as a failure result
(`pattern: null`, explanatory error, nothing thrown), but the claimed
no-exception guarantee fails for ordinary verb-bearing inputs: `buildVP`
throws a ReferenceError whenever a verb head is found, and the exception
propagates out of the public `matchPattern` operation. -/
theorem c2_buildVP_raises_instead_of_returning_result :
    matchPattern [] =
      Except.ok ⟨none, none, ["No tokens provided for pattern matching"]⟩
    ∧ buildVP [tokReads] = Except.error tdzError
    ∧ matchPattern [tokMan, tokReads] = Except.error tdzError := by
  refine ⟨rfl, ?_, ?_⟩
  · simp [buildVP, findHead, lastIdxWith, headPOSMap, tokReads, Token.create, tdzError]
  · simp [matchPattern, tryCopularPattern, propertyMatch, identityMatch, locationMatch,
      actionMatch, copularExtractComponents, actionExtractComponents, actionBuildTree,
      buildNP, buildVP, findHead, findSpecifier, specScan, lastIdxWith, firstIdxWith,
      headPOSMap, specifierPOSMap, tokMan, tokReads, Token.create, manEntry, tdzError,
      Bind.bind, Except.bind]

/-- Helper: `firstIdxWith` is `List.findIdx?`. -/
theorem firstIdxWith_eq_findIdx? (p : α → Bool) (l : List α) :
    firstIdxWith p l = l.findIdx? p := by
  induction l with
  | nil => simp [firstIdxWith]
  | cons a as ih => simp [firstIdxWith, List.findIdx?_cons, ih, List.findIdx?_succ]

/-- Helper: `firstIdxWith` finds nothing exactly when no element satisfies
the predicate. -/
theorem firstIdxWith_eq_none (p : α → Bool) (l : List α) :
    firstIdxWith p l = none ↔ ∀ a ∈ l, p a = false := by
  induction l with
  | nil => simp [firstIdxWith]
  | cons a as ih =>
    by_cases hpa : p a
    · simp [firstIdxWith, hpa]
    · simp only [Bool.not_eq_true] at hpa
      simp only [firstIdxWith, hpa, Bool.false_eq_true, if_false, Option.map_eq_none',
        List.mem_cons]
      constructor
      · intro h b hb
        rcases hb with rfl | hb
        · exact hpa
        · exact (ih.mp h) b hb
      · intro h
        exact ih.mpr (fun b hb => h b (Or.inr hb))

/-- Helper: `lastIdxWith` finds nothing exactly when no element satisfies
the predicate. -/
theorem lastIdxWith_eq_none (p : α → Bool) (l : List α) :
    lastIdxWith p l = none ↔ ∀ a ∈ l, p a = false := by
  induction l with
  | nil => simp [lastIdxWith]
  | cons a as ih =>
    simp only [lastIdxWith]
    cases htail : lastIdxWith p as with
    | some j =>
      simp only [List.mem_cons]
      constructor
      · intro h; simp at h
      · intro h
        have := ih.mpr (fun b hb => h b (Or.inr hb))
        simp [this] at htail
    | none =>
      by_cases hpa : p a
      · simp only [hpa, if_true, List.mem_cons]
        constructor
        · intro h; simp at h
        · intro h
          have := h a (Or.inl rfl)
          simp [hpa] at this
      · simp only [hpa, if_false, List.mem_cons]
        simp only [Bool.not_eq_true] at hpa
        constructor
        · intro _ b hb
          rcases hb with rfl | hb
          · exact hpa
          · exact (ih.mp htail) b hb
        · intro _; rfl

/-- Helper: `lastIdxWith` returns exactly the greatest index whose element
satisfies the predicate. -/
theorem lastIdxWith_eq_some (p : α → Bool) (l : List α) (i : Nat) :
    lastIdxWith p l = some i ↔
    (∃ a, l[i]? = some a ∧ p a = true) ∧
    (∀ j, i < j → ∀ b, l[j]? = some b → p b = false) := by
  induction l generalizing i with
  | nil => simp [lastIdxWith]
  | cons a as ih =>
    simp only [lastIdxWith]
    cases htail : lastIdxWith p as with
    | some j =>
      obtain ⟨⟨b₀, hb₀, hpb₀⟩, hafter⟩ := (ih j).mp htail
      cases i with
      | zero =>
        simp only [List.getElem?_cons_zero, Option.some.injEq]
        constructor
        · intro h; omega
        · rintro ⟨_, hall⟩
          have := hall (j + 1) (Nat.succ_pos j) b₀ (by simpa using hb₀)
          simp [hpb₀] at this
      | succ k =>
        simp only [List.getElem?_cons_succ, Option.some.injEq]
        constructor
        · intro h
          have hjk : j = k := by omega
          subst hjk
          refine ⟨⟨b₀, hb₀, hpb₀⟩, ?_⟩
          intro m hm b hb
          cases m with
          | zero => omega
          | succ m' => exact hafter m' (by omega) b (by simpa using hb)
        · rintro ⟨⟨c, hc, hpc⟩, h2⟩
          by_contra hne
          rcases Nat.lt_or_ge j k with hlt | hge
          · have := hafter k hlt c hc
            simp [hpc] at this
          · have hkj : k < j := by omega
            have := h2 (j + 1) (by omega) b₀ (by simpa using hb₀)
            simp [hpb₀] at this
    | none =>
      have hnone := (lastIdxWith_eq_none p as).mp htail
      by_cases hpa : p a
      · simp only [hpa, if_true]
        cases i with
        | zero =>
          simp only [List.getElem?_cons_zero, Option.some.injEq, true_iff]
          refine ⟨⟨a, rfl, hpa⟩, ?_⟩
          intro j hj b hb
          cases j with
          | zero => omega
          | succ j' =>
            simp only [List.getElem?_cons_succ] at hb
            exact hnone b (List.getElem?_mem hb)
        | succ k =>
          simp only [List.getElem?_cons_succ, Option.some.injEq]
          constructor
          · intro h; omega
          · rintro ⟨⟨c, hc, hpc⟩, _⟩
            have := hnone c (List.getElem?_mem hc)
            simp [hpc] at this
      · simp only [hpa, if_false]
        simp only [Bool.not_eq_true] at hpa
        constructor
        · intro h; simp at h
        · rintro ⟨⟨c, hc, hpc⟩, _⟩
          cases i with
          | zero =>
            simp only [List.getElem?_cons_zero, Option.some.injEq] at hc
            subst hc; simp [hpc] at hpa
          | succ k =>
            simp only [List.getElem?_cons_succ] at hc
            have := hnone c (List.getElem?_mem hc)
            simp [hpc] at this

/-- Helper: `firstIdxWith` returns exactly the least index whose element
satisfies the predicate. -/
theorem firstIdxWith_eq_some (p : α → Bool) (l : List α) (i : Nat) :
    firstIdxWith p l = some i ↔
    (∃ a, l[i]? = some a ∧ p a = true) ∧
    (∀ j, j < i → ∀ b, l[j]? = some b → p b = false) := by
  induction l generalizing i with
  | nil => simp [firstIdxWith]
  | cons a as ih =>
    by_cases hpa : p a
    · simp only [firstIdxWith, hpa, if_true]
      cases i with
      | zero =>
        simp only [List.getElem?_cons_zero, Option.some.injEq, true_iff]
        exact ⟨⟨a, rfl, hpa⟩, by omega⟩
      | succ k =>
        simp only [List.getElem?_cons_succ, Option.some.injEq]
        constructor
        · intro h; omega
        · rintro ⟨_, hall⟩
          have := hall 0 (Nat.succ_pos k) a (by simp)
          simp [hpa] at this
    · simp only [Bool.not_eq_true] at hpa
      simp only [firstIdxWith, hpa, Bool.false_eq_true, if_false, Option.map_eq_some']
      cases i with
      | zero =>
        simp only [List.getElem?_cons_zero]
        constructor
        · rintro ⟨i', _, h⟩; omega
        · rintro ⟨⟨b, hb, hpb⟩, _⟩
          cases hb
          simp [hpb] at hpa
      | succ k =>
        simp only [List.getElem?_cons_succ]
        constructor
        · rintro ⟨i', hi', hik⟩
          have hik' : i' = k := by omega
          subst hik'
          obtain ⟨h1, h2⟩ := (ih i').mp hi'
          refine ⟨h1, ?_⟩
          intro j hj b hb
          cases j with
          | zero =>
            simp only [List.getElem?_cons_zero, Option.some.injEq] at hb
            subst hb; exact hpa
          | succ j' => exact h2 j' (by omega) b (by simpa using hb)
        · rintro ⟨h1, h2⟩
          refine ⟨k, (ih k).mpr ⟨h1, ?_⟩, rfl⟩
          intro j hj b hb
          exact h2 (j + 1) (by omega) b (by simpa using hb)

/-- C4 (counterexample): for the token sequence Copula-Adjective-Copula
the claimed shape predicate is satisfied (first copula at index 0, first
adjective at index 1, 0 < 1) yet `PROPERTY_PATTERN.match` returns false,
because the scanning loop records the LAST copula index (2). -/
theorem c4_counterexample :
    propertyMatch [tokIs, tokRed, tokIs] = false
    ∧ firstIdxWith (fun t => t.pos = POS.COPULA) [tokIs, tokRed, tokIs] = some 0
    ∧ firstIdxWith (fun t => t.pos = POS.ADJECTIVE) [tokIs, tokRed, tokIs] = some 1 := by
  refine ⟨rfl, rfl, rfl⟩

/-- C4 (amended): `PROPERTY_PATTERN.match` returns true for a tagged token
sequence exactly when the sequence has at least three tokens, contains a
Copula token and an Adjective token, and the index of the LAST Copula
precedes the index of the first Adjective. -/
theorem c4_property_match_amended (tokens : List Token) :
    propertyMatch tokens = true ↔
    3 ≤ tokens.length ∧
    ∃ ci ai : Nat,
      (∃ a, tokens[ci]? = some a ∧ a.pos = POS.COPULA) ∧
      (∀ j, ci < j → ∀ b, tokens[j]? = some b → b.pos ≠ POS.COPULA) ∧
      (∃ a, tokens[ai]? = some a ∧ a.pos = POS.ADJECTIVE) ∧
      (∀ j, j < ai → ∀ b, tokens[j]? = some b → b.pos ≠ POS.ADJECTIVE) ∧
      ci < ai := by
  unfold propertyMatch
  by_cases hlen : tokens.length < 3
  · simp only [hlen, if_true]
    constructor
    · intro h; simp at h
    · rintro ⟨h3, _⟩; omega
  · simp only [hlen, if_false]
    have hlen' : 3 ≤ tokens.length := by omega
    cases hc : lastIdxWith (fun t => decide (t.pos = POS.COPULA)) tokens with
    | none =>
      have hno := (lastIdxWith_eq_none _ tokens).mp hc
      constructor
      · intro h; simp at h
      · rintro ⟨_, ci, ai, ⟨a, ha, hpa⟩, -, -, -, -⟩
        have := hno a (List.getElem?_mem ha)
        simp [hpa] at this
    | some ci =>
      obtain ⟨⟨a, ha, hpa⟩, hafter⟩ := (lastIdxWith_eq_some _ tokens ci).mp hc
      simp only [decide_eq_true_eq] at hpa
      cases hd : firstIdxWith (fun t => decide (t.pos = POS.ADJECTIVE)) tokens with
      | none =>
        have hno := (firstIdxWith_eq_none _ tokens).mp hd
        constructor
        · intro h; simp at h
        · rintro ⟨_, ci', ai, -, -, ⟨b, hb, hpb⟩, -, -⟩
          have := hno b (List.getElem?_mem hb)
          simp [hpb] at this
      | some ai =>
        obtain ⟨⟨b, hb, hpb⟩, hbefore⟩ := (firstIdxWith_eq_some _ tokens ai).mp hd
        simp only [decide_eq_true_eq] at hpb
        simp only [decide_eq_true_eq]
        constructor
        · intro hlt
          refine ⟨hlen', ci, ai, ⟨a, ha, hpa⟩, ?_, ⟨b, hb, hpb⟩, ?_, hlt⟩
          · intro j hj c hcj
            have := hafter j hj c hcj
            simpa using this
          · intro j hj c hcj
            have := hbefore j hj c hcj
            simpa using this
        · rintro ⟨_, ci', ai', ⟨a', ha', hpa'⟩, hafter', ⟨b', hb', hpb'⟩, hbefore', hlt'⟩
          have hceq : ci' = ci := by
            have : lastIdxWith (fun t => decide (t.pos = POS.COPULA)) tokens = some ci' := by
              refine (lastIdxWith_eq_some _ tokens ci').mpr ⟨⟨a', ha', by simp [hpa']⟩, ?_⟩
              intro j hj c hcj
              have := hafter' j hj c hcj
              simpa using this
            rw [hc] at this
            exact (Option.some.injEq _ _ ▸ this).symm
          have haeq : ai' = ai := by
            have : firstIdxWith (fun t => decide (t.pos = POS.ADJECTIVE)) tokens = some ai' := by
              refine (firstIdxWith_eq_some _ tokens ai').mpr ⟨⟨b', hb', by simp [hpb']⟩, ?_⟩
              intro j hj c hcj
              have := hbefore' j hj c hcj
              simpa using this
            rw [hd] at this
            exact (Option.some.injEq _ _ ▸ this).symm
          omega

/-- Helper: once the `findSpecifier` loop has collected something, it
keeps collecting consecutive valid specifiers and breaks at the first
invalid token. -/
theorem specScan_acc_nonempty (valid : List POS) (l : List (Nat × Token))
    (acc : List (Nat × Token)) (h : acc ≠ []) :
    specScan valid l acc = acc ++ l.takeWhile (fun p => valid.contains p.2.pos) := by
  induction l generalizing acc with
  | nil => simp [specScan]
  | cons x rest ih =>
    by_cases hv : valid.contains x.2.pos
    · simp only [specScan, hv, if_true, List.takeWhile_cons, List.cons_append]
      rw [ih (acc ++ [x]) (by simp)]
      simp
    · have hv' : valid.contains x.2.pos = false := by simpa using hv
      simp only [specScan, hv', Bool.false_eq_true, if_false, List.takeWhile_cons]
      simp only [List.isEmpty_eq_true, h, if_false, hv']
      simp

/-- Helper: starting empty, the `findSpecifier` loop skips leading
invalid tokens and then collects the first consecutive run of valid
ones. -/
theorem specScan_nil_acc (valid : List POS) (l : List (Nat × Token)) :
    specScan valid l [] =
      (l.dropWhile (fun p => ¬ valid.contains p.2.pos)).takeWhile
        (fun p => valid.contains p.2.pos) := by
  induction l with
  | nil => simp [specScan]
  | cons x rest ih =>
    by_cases hv : valid.contains x.2.pos
    · simp only [specScan, hv, if_true, List.nil_append, Prod.mk.eta,
        List.dropWhile_cons, List.takeWhile_cons]
      rw [specScan_acc_nonempty valid rest [x] (by simp)]
      have hv' : x.2.pos ∈ valid := by simpa using hv
      simp [hv', List.takeWhile_cons]
    · have hv' : valid.contains x.2.pos = false := by simpa using hv
      simp only [specScan, hv', Bool.false_eq_true, if_false, List.isEmpty_nil, if_true,
        List.dropWhile_cons]
      simp [hv', ih]

/-- C5 (counterexample): with the run Adjective-Determiner-Noun and head
index 2, the first token is not a valid NP specifier, yet `findSpecifier`
returns the determiner at index 1 — the loop skips leading non-specifier
tokens instead of stopping, refuting the claim's consequence that no
specifier is found in that case. -/
theorem c5_counterexample :
    findSpecifier [tokRed, tokThe, tokMan] 2 PhraseType.NP = some ([tokThe], [1])
    ∧ (specifierPOSMap PhraseType.NP).contains tokRed.pos = false := by
  exact ⟨rfl, rfl⟩

/-- C5 (amended): `findSpecifier` scans the tokens strictly before the
head index, SKIPS any leading non-specifier tokens, then collects the
first maximal consecutive run of valid specifier tokens and stops at the
first non-specifier after the run even if specifiers reappear later; it
returns `none` exactly when the head is at index 0 or no such run exists
before the head. -/
theorem c5_find_specifier_amended (tokens : List Token) (headIndex : Nat)
    (phraseType : PhraseType) :
    findSpecifier tokens headIndex phraseType =
      if headIndex = 0 then none
      else
        let valid := specifierPOSMap phraseType
        let run := ((tokens.enum.take headIndex).dropWhile
            (fun p => ¬ valid.contains p.2.pos)).takeWhile
            (fun p => valid.contains p.2.pos)
        if run.isEmpty then none else some (run.map (·.2), run.map (·.1)) := by
  unfold findSpecifier
  by_cases h0 : headIndex = 0
  · simp [h0]
  · simp only [h0, if_false]
    rw [specScan_nil_acc]

/-- Helper: the head token of an assembled XP -> X-bar phrase is the token
stored on the bar level. -/
theorem getHeadToken_phrase (cat : PhraseType) (ht : Token) (comp2 : Option XBarNode)
    (spec : Option XBarNode) (adjs : List XBarNode) (sem : Option SemanticRole) :
    (XBarNode.mk XBarLevel.XP cat none
      (some (XBarNode.mk XBarLevel.XBar cat (some ht) comp2 none [] none)) spec adjs
      sem).getHeadToken = some ht := by
  rw [XBarNode.getHeadToken]
  rw [XBarNode.findHeadNode.eq_def]
  simp only [XBarNode.type, Option.isSome_none, reduceCtorEq, Bool.false_eq_true,
    if_false, if_true]
  rw [XBarNode.findHeadNode.eq_def]
  simp only [reduceCtorEq, Bool.false_eq_true, if_false, Option.isSome_some, if_true]
  rfl

/-- C6: for every non-empty token run, `findHead` selects exactly the
rightmost token whose POS is valid for the target category (no later
index holds a valid token); when no valid token exists, `findHead` fails
and each builder (`buildNP`, `buildAP`, `buildPP`, `buildVP`) returns a
null node with its descriptive no-head-found error; and the node built by
`buildNP` carries the found head token. -/
theorem c6_head_finding (tokens : List Token) (hne : tokens ≠ []) :
    (∀ pt t i, findHead tokens pt = some (t, i) →
      tokens[i]? = some t ∧ (headPOSMap pt).contains t.pos = true ∧
      (∀ j, i < j → ∀ u, tokens[j]? = some u → (headPOSMap pt).contains u.pos = false))
    ∧ (∀ pt, (∀ t ∈ tokens, (headPOSMap pt).contains t.pos = false) →
        findHead tokens pt = none)
    ∧ ((∀ t ∈ tokens, (headPOSMap PhraseType.NP).contains t.pos = false) →
        buildNP tokens = ⟨none, ["No noun found for NP head"]⟩)
    ∧ ((∀ t ∈ tokens, (headPOSMap PhraseType.AP).contains t.pos = false) →
        buildAP tokens = ⟨none, ["No adjective found for AP head"]⟩)
    ∧ ((∀ t ∈ tokens, (headPOSMap PhraseType.PP).contains t.pos = false) →
        buildPP tokens = ⟨none, ["No preposition found for PP head"]⟩)
    ∧ ((∀ t ∈ tokens, (headPOSMap PhraseType.VP).contains t.pos = false) →
        buildVP tokens = Except.ok ⟨none, ["No verb found for VP head"]⟩)
    ∧ (∀ t i, findHead tokens PhraseType.NP = some (t, i) →
        ∃ n, (buildNP tokens).node = some n ∧ n.getHeadToken = some t) := by
  have hempty : tokens.isEmpty = false := by
    cases tokens with
    | nil => exact absurd rfl hne
    | cons a as => rfl
  have hnone : ∀ pt, (∀ t ∈ tokens, (headPOSMap pt).contains t.pos = false) →
      findHead tokens pt = none := by
    intro pt hall
    unfold findHead
    rw [(lastIdxWith_eq_none _ tokens).mpr hall]
  refine ⟨?_, hnone, ?_, ?_, ?_, ?_, ?_⟩
  · intro pt t i hf
    unfold findHead at hf
    cases hidx : lastIdxWith (fun tk => (headPOSMap pt).contains tk.pos) tokens with
    | none => rw [hidx] at hf; simp at hf
    | some i' =>
      rw [hidx] at hf
      cases hget : tokens[i']? with
      | none =>
        simp only [hget] at hf
        exact Option.noConfusion hf
      | some t' =>
        simp only [hget, Option.some.injEq, Prod.mk.injEq] at hf
        obtain ⟨rfl, rfl⟩ := hf
        obtain ⟨⟨a, ha, hpa⟩, hafter⟩ := (lastIdxWith_eq_some _ tokens i').mp hidx
        rw [hget] at ha
        cases ha
        exact ⟨hget, hpa, fun j hj u hu => hafter j hj u hu⟩
  · intro hall
    simp [buildNP, hempty, hnone PhraseType.NP hall]
  · intro hall
    simp [buildAP, hempty, hnone PhraseType.AP hall]
  · intro hall
    simp [buildPP, hempty, hnone PhraseType.PP hall]
  · intro hall
    simp [buildVP, hempty, hnone PhraseType.VP hall]
  · intro t i hf
    simp only [buildNP, hempty, Bool.false_eq_true, if_false, hf]
    refine ⟨_, rfl, ?_⟩
    split
    all_goals
      simp only [XBarNode.createFullPhrase, XBarNode.createPhraseWithSpecifier,
        XBarNode.createPhraseWithComplement, XBarNode.createSimplePhrase,
        XBarNode.createHead, XBarNode.createBar, XBarNode.createPhrase,
        XBarNode.withAdjuncts, XBarNode.withRole, XBarNode.headToken]
    all_goals exact getHeadToken_phrase ..

/-- C6 (witness): instantiates the head-finding theorem at the concrete
run ["The"/DETERMINER], whose NP build fails with the no-head error. -/
theorem c6_head_finding_witness :
    buildNP [tokThe] = ⟨none, ["No noun found for NP head"]⟩ :=
  (c6_head_finding [tokThe] (by simp)).2.2.1 (by decide)

/-- Helper: the only error codes the required-components check can emit. -/
theorem checkRequiredComponents_error_codes (m : MeaningRepresentation)
    (opts : ValidatorOptions) :
    ∀ msg ∈ (checkRequiredComponents m opts).1,
      msg.code = "MISSING_PREDICATE" ∨ msg.code = "MISSING_SUBJECT" := by
  intro msg hmsg
  unfold checkRequiredComponents at hmsg
  simp only [List.mem_append] at hmsg
  rcases hmsg with h | h
  · split at h
    · simp only [List.mem_singleton] at h
      subst h; left; rfl
    · simp at h
  · split at h
    · simp only [List.mem_singleton] at h
      subst h; right; rfl
    · simp at h

/-- Helper: the agreement pass emits only `AGREEMENT_ERROR` errors. -/
theorem checkAllAgreement_error_codes (m : MeaningRepresentation) :
    ∀ msg ∈ checkAllAgreement m, msg.code = "AGREEMENT_ERROR" := by
  intro msg hmsg
  unfold checkAllAgreement at hmsg
  split at hmsg
  · split at hmsg
    · simp only [List.mem_singleton] at hmsg
      subst hmsg; rfl
    · simp at hmsg
  · simp at hmsg

/-- C8: `validate` reports `isValid` exactly when its error list is empty
(warnings never affect validity), and no produced error carries the
`SELECTIONAL_VIOLATION` code — selectional-restriction violations are
always warnings.  Holds for every option configuration and for the null
meaning. -/
theorem c8_validity_iff_no_errors (opts : ValidatorOptions)
    (meaning : Option MeaningRepresentation) :
    ((validate opts meaning).isValid = true ↔ (validate opts meaning).errors = [])
    ∧ ∀ msg ∈ (validate opts meaning).errors, msg.code ≠ "SELECTIONAL_VIOLATION" := by
  cases meaning with
  | none =>
    refine ⟨by simp [validate], ?_⟩
    intro msg hmsg
    simp only [validate, List.mem_singleton] at hmsg
    subst hmsg
    simp
  | some m =>
    constructor
    · simp only [validate, List.isEmpty_iff]
    · intro msg hmsg
      simp only [validate, List.mem_append] at hmsg
      rcases hmsg with h | h
      · rcases checkRequiredComponents_error_codes m opts msg h with hc | hc <;>
          simp [hc]
      · split at h
        · have := checkAllAgreement_error_codes m msg h
          simp [this]
        · simp at h

/-- C8 (witness): instantiates the validity theorem at the null meaning,
whose single error is `NULL_MEANING`, not a selectional violation. -/
theorem c8_validity_witness :
    (⟨"error", "NULL_MEANING", "No meaning representation provided", none⟩ : VMessage).code
      ≠ "SELECTIONAL_VIOLATION" :=
  (c8_validity_iff_no_errors {} none).2 _ (by simp [validate])

/-- Helper: effect of the JS `Map.set` replacement pass on `find?` for the
written key. -/
theorem find?_map_replace (m : Args) (k : SemanticRole) (v : ArgVal) :
    (m.map (fun p => if p.1 = k then (k, v) else p)).find? (fun p => p.1 = k)
      = if m.any (fun p => p.1 = k) then some (k, v) else none := by
  induction m with
  | nil => simp
  | cons p rest ih =>
    by_cases hp : p.1 = k
    · simp [List.find?_cons, hp, List.any_cons]
    · have hd : (decide (p.1 = k)) = false := by simp [hp]
      simp only [List.map_cons, List.find?_cons, List.any_cons, hd]
      rw [Bool.false_or]
      simp only [hp, ih, decide_eq_true_eq, if_false, List.find?_map,
        Option.map_map]
      rfl

/-- Helper: the `Map.set` replacement pass leaves other keys alone. -/
theorem find?_map_replace_ne (m : Args) (k : SemanticRole) (v : ArgVal)
    (k2 : SemanticRole) (h : k ≠ k2) :
    (m.map (fun p => if p.1 = k then (k, v) else p)).find? (fun p => p.1 = k2)
      = m.find? (fun p => p.1 = k2) := by
  induction m with
  | nil => simp
  | cons p rest ih =>
    by_cases hp : p.1 = k
    · have hk2 : ¬ p.1 = k2 := by rw [hp]; exact h
      simp [List.find?_cons, hp, h, hk2, ih]
    · by_cases hp2 : p.1 = k2 <;>
        simp [List.find?_cons, hp, hp2, ih, Ne.symm h]

/-- Helper: reading the key just written by `Map.set`. -/
theorem argsGet_set_eq (m : Args) (k : SemanticRole) (v : ArgVal) :
    argsGet (argsSet m k v) k = some v := by
  unfold argsGet argsSet
  by_cases h : m.any (fun p => p.1 = k)
  · simp only [h, if_true, find?_map_replace, Option.map_some']
  · simp only [h, Bool.false_eq_true, if_false]
    rw [List.find?_append]
    have hnone : m.find? (fun p => decide (p.1 = k)) = none := by
      rw [List.find?_eq_none]
      intro p hp
      simp only [Bool.not_eq_true] at h ⊢
      by_contra hcon
      simp only [Bool.not_eq_false, decide_eq_true_eq] at hcon
      have : m.any (fun p => p.1 = k) = true := by
        rw [List.any_eq_true]
        exact ⟨p, hp, by simp [hcon]⟩
      simp [this] at h
    simp [hnone, List.find?_cons]

/-- Helper: `Map.set` does not disturb other keys. -/
theorem argsGet_set_ne (m : Args) (k : SemanticRole) (v : ArgVal)
    (k2 : SemanticRole) (h : k ≠ k2) :
    argsGet (argsSet m k v) k2 = argsGet m k2 := by
  unfold argsGet argsSet
  by_cases hany : m.any (fun p => p.1 = k)
  · simp only [hany, if_true, find?_map_replace_ne m k v k2 h]
  · simp only [hany, Bool.false_eq_true, if_false]
    rw [List.find?_append]
    have hsingle : ([(k, v)].find? (fun p => decide (p.1 = k2))) = none := by
      simp [List.find?_cons, h]
    cases hm : m.find? (fun p => decide (p.1 = k2)) <;> simp [hsingle]

/-- Helper: a deleted key is unbound. -/
theorem argsGet_delete_eq (m : Args) (k : SemanticRole) :
    argsGet (argsDelete m k) k = none := by
  unfold argsGet argsDelete
  have hnone : (m.filter (fun p => ¬ p.1 = k)).find? (fun p => decide (p.1 = k)) = none := by
    rw [List.find?_eq_none]
    intro p hp
    have := List.of_mem_filter hp
    simpa using this
  simp [hnone]

/-- No preposition maps to `THEME` or `AGENT` in `prepRole`. -/
theorem prepRole_ne_theme_agent (s : String) :
    prepRole s ≠ SemanticRole.THEME ∧ prepRole s ≠ SemanticRole.AGENT := by
  unfold prepRole
  split_ifs <;> exact ⟨by simp, by simp⟩

/-- A single adjunct never touches a role outside `prepRole`'s range. -/
theorem extractAdjunct_preserves (R : SemanticRole)
    (hpr : ∀ s, prepRole s ≠ R)
    (n : XBarNode) (m : MeaningRepresentation) (ids : Nat → String) (k : Nat) :
    argsGet ((extractAdjunct n m ids k).1).args R = argsGet m.args R := by
  unfold extractAdjunct
  split
  · split
    · split
      · simp only [MeaningRepresentation.setArgument]
        exact argsGet_set_ne _ _ _ _ (hpr _)
      · rfl
    · rfl
  · split
    · split
      · simp [MeaningRepresentation.setFeature]
      · rfl
    · rfl

/-- The adjunct fold never touches a role outside `prepRole`'s range. -/
theorem extractAdjuncts_preserves (R : SemanticRole)
    (hpr : ∀ s, prepRole s ≠ R)
    (adjs : List XBarNode) (m : MeaningRepresentation) (ids : Nat → String) (k : Nat) :
    argsGet ((extractAdjuncts adjs m ids k).1).args R = argsGet m.args R := by
  induction adjs generalizing m k with
  | nil => rfl
  | cons a rest ih =>
    unfold extractAdjuncts
    rw [ih]
    exact extractAdjunct_preserves R hpr a m ids k

/-- `extractFromVP` only ever binds `PATIENT` and adjunct roles. -/
theorem extractFromVP_preserves (R : SemanticRole)
    (hP : R ≠ SemanticRole.PATIENT) (hpr : ∀ s, prepRole s ≠ R)
    (n : XBarNode) (m : MeaningRepresentation) (ids : Nat → String) (k : Nat) :
    argsGet ((extractFromVP n m ids k).1).args R = argsGet m.args R := by
  unfold extractFromVP
  split
  · rfl
  · split
    all_goals try split
    all_goals try split
    all_goals rw [extractAdjuncts_preserves R hpr]
    all_goals
      first
        | rfl
        | (simp only [MeaningRepresentation.setArgument]
           exact argsGet_set_ne _ _ _ _ (fun h => hP h.symm))

/-- `extractFromAP` never changes the argument map. -/
theorem extractFromAP_args (n : XBarNode) (m : MeaningRepresentation) :
    ((extractFromAP n m)).args = m.args := by
  unfold extractFromAP
  split
  · rfl
  · split
    all_goals try split
    all_goals try split
    all_goals rfl

/-- `extractIdentityPredicate` only ever binds `PROPERTY`. -/
theorem extractIdentityPredicate_preserves (R : SemanticRole)
    (hP : R ≠ SemanticRole.PROPERTY)
    (n : XBarNode) (m : MeaningRepresentation) (ids : Nat → String) (k : Nat) :
    argsGet ((extractIdentityPredicate n m ids k).1).args R = argsGet m.args R := by
  unfold extractIdentityPredicate
  split
  · rfl
  · split
    · simp only [MeaningRepresentation.setArgument]
      exact argsGet_set_ne _ _ _ _ (fun h => hP h.symm)
    · rfl

/-- `extractFromTBar` only ever binds `PATIENT`, `PROPERTY` and adjunct
roles; in particular it leaves `THEME` and `AGENT` alone. -/
theorem extractFromTBar_preserves (R : SemanticRole)
    (hPat : R ≠ SemanticRole.PATIENT) (hProp : R ≠ SemanticRole.PROPERTY)
    (hpr : ∀ s, prepRole s ≠ R)
    (n : XBarNode) (m : MeaningRepresentation) (ids : Nat → String) (k : Nat) :
    argsGet ((extractFromTBar n m ids k).1).args R = argsGet m.args R := by
  unfold extractFromTBar
  split
  all_goals try split
  all_goals try split
  all_goals try split
  all_goals try split_ifs
  all_goals
    simp only [extractFromVP_preserves R hPat hpr,
      extractIdentityPredicate_preserves R hProp, extractFromAP_args,
      MeaningRepresentation.setFeature]

/-- `assignRoles` keeps the predicate. -/
theorem assignRoles_predicate (m : MeaningRepresentation) :
    (assignRoles m).predicate = m.predicate := by
  unfold assignRoles
  split
  · rfl
  · split
    · split <;> rfl
    · rfl

/-- For a `DOES` predicate with an unbound `AGENT`, `assignRoles` leaves
no `THEME` binding and moves the old `THEME` value to `AGENT`. -/
theorem assignRoles_does (m : MeaningRepresentation) (p : Predicate)
    (hp : m.predicate = some p) (hdoes : p.type = PredicateType.DOES)
    (hA : argsGet m.args SemanticRole.AGENT = none) :
    argsGet (assignRoles m).args SemanticRole.THEME = none
    ∧ argsGet (assignRoles m).args SemanticRole.AGENT
        = argsGet m.args SemanticRole.THEME := by
  unfold assignRoles
  rw [hp]
  simp only [hdoes, if_pos rfl]
  cases ht : argsGet m.args SemanticRole.THEME with
  | none =>
    simp only []
    exact ⟨ht, hA⟩
  | some theme =>
    simp only []
    constructor
    · show argsGet (argsSet (argsDelete m.args SemanticRole.THEME)
          SemanticRole.AGENT theme) SemanticRole.THEME = none
      rw [argsGet_set_ne _ _ _ _ (by simp)]
      exact argsGet_delete_eq m.args SemanticRole.THEME
    · show argsGet (argsSet (argsDelete m.args SemanticRole.THEME)
          SemanticRole.AGENT theme) SemanticRole.AGENT = some theme
      exact argsGet_set_eq _ _ _

/-- For any non-`DOES` predicate, `assignRoles` is the identity on the
argument map. -/
theorem assignRoles_not_does (m : MeaningRepresentation)
    (h : ∀ p, m.predicate = some p → p.type ≠ PredicateType.DOES) :
    (assignRoles m).args = m.args := by
  unfold assignRoles
  split
  · rfl
  · rename_i p hp
    split
    · exact absurd (by assumption) (h p hp)
    · rfl

/-- C7: in every meaning `extractFromTP` produces, a `Does` predicate
implies the arguments map has no `THEME` key and the provisional subject
sits under `AGENT` (re-keyed, not duplicated); for every other predicate
kind (`HasProperty`, `IsA`, ...) the subject keeps the `THEME` key and
`AGENT` stays unbound. -/
theorem c7_role_promotion (node : XBarNode) (ids : Nat → String) (k : Nat) :
    (∀ p, ((extractFromTP node ids k).1).predicate = some p →
      p.type = PredicateType.DOES →
      argsGet ((extractFromTP node ids k).1).args SemanticRole.THEME = none
      ∧ argsGet ((extractFromTP node ids k).1).args SemanticRole.AGENT
          = subjectArg node ids k)
    ∧ (∀ p, ((extractFromTP node ids k).1).predicate = some p →
      p.type ≠ PredicateType.DOES →
      argsGet ((extractFromTP node ids k).1).args SemanticRole.THEME
          = subjectArg node ids k
      ∧ argsGet ((extractFromTP node ids k).1).args SemanticRole.AGENT = none) := by
  have hprT := fun s => (prepRole_ne_theme_agent s).1
  have hprA := fun s => (prepRole_ne_theme_agent s).2
  unfold extractFromTP
  simp only []
  -- the meaning before assignRoles
  set m0 : MeaningRepresentation :=
    { type := SentenceType.DECLARATIVE, predicate := none, args := [], features := [] }
    with hm0
  set step1 : MeaningRepresentation × Nat :=
    match node.specifier with
    | some sp =>
      match extractFromNP sp ids k with
      | (some subjectEntity, k') =>
        (m0.setArgument SemanticRole.THEME (ArgVal.one subjectEntity), k')
      | (none, k') => (m0, k')
    | none => (m0, k)
    with hstep1
  set step2 : MeaningRepresentation × Nat :=
    match node.complement with
    | some c => extractFromTBar c step1.1 ids step1.2
    | none => step1
    with hstep2
  have h1T : argsGet step1.1.args SemanticRole.THEME = subjectArg node ids k := by
    rw [hstep1]
    unfold subjectArg
    cases node.specifier with
    | none => simp [hm0, argsGet]
    | some sp =>
      cases hnp : extractFromNP sp ids k with
      | mk e? k' =>
        cases e? with
        | none => simp [hnp, hm0, argsGet]
        | some e =>
          simp only [hnp, MeaningRepresentation.setArgument, Option.map_some']
          exact argsGet_set_eq _ _ _
  have h1A : argsGet step1.1.args SemanticRole.AGENT = none := by
    rw [hstep1]
    cases node.specifier with
    | none => simp [hm0, argsGet]
    | some sp =>
      cases hnp : extractFromNP sp ids k with
      | mk e? k' =>
        cases e? with
        | none => simp [hnp, hm0, argsGet]
        | some e =>
          simp only [hnp, MeaningRepresentation.setArgument]
          rw [argsGet_set_ne _ _ _ _ (by simp)]
          simp [hm0, argsGet]
  have h2T : argsGet step2.1.args SemanticRole.THEME = subjectArg node ids k := by
    rw [hstep2]
    cases node.complement with
    | none => exact h1T
    | some c =>
      rw [extractFromTBar_preserves SemanticRole.THEME (by simp) (by simp) hprT]
      exact h1T
  have h2A : argsGet step2.1.args SemanticRole.AGENT = none := by
    rw [hstep2]
    cases node.complement with
    | none => exact h1A
    | some c =>
      rw [extractFromTBar_preserves SemanticRole.AGENT (by simp) (by simp) hprA]
      exact h1A
  constructor
  · intro p hp hdoes
    rw [assignRoles_predicate] at hp
    obtain ⟨ha, hb⟩ := assignRoles_does step2.1 p hp hdoes h2A
    exact ⟨ha, hb.trans h2T⟩
  · intro p hp hnd
    rw [assignRoles_predicate] at hp
    have hnot : ∀ q, step2.1.predicate = some q → q.type ≠ PredicateType.DOES := by
      intro q hq
      rw [hp] at hq
      cases hq
      exact hnd
    rw [assignRoles_not_does step2.1 hnot]
    exact ⟨h2T, h2A⟩

/-- A bar-level node that carries a head token is its own head node. -/
theorem getHeadToken_bar (cat : PhraseType) (t : Token) (comp spec : Option XBarNode)
    (adjs : List XBarNode) (sem : Option SemanticRole) :
    (XBarNode.mk XBarLevel.XBar cat (some t) comp spec adjs sem).getHeadToken
      = some t := by
  rw [XBarNode.getHeadToken]
  rw [XBarNode.findHeadNode.eq_def]
  simp only [reduceCtorEq, Bool.false_eq_true, if_false, Option.isSome_some, if_true]
  rfl

/-- Witness for C7 at a concrete man-reads tense phrase. -/
theorem c7_role_promotion_witness :
    argsGet ((extractFromTP c7Tree c7Ids 0).1).args SemanticRole.THEME = none
    ∧ argsGet ((extractFromTP c7Tree c7Ids 0).1).args SemanticRole.AGENT
        = subjectArg c7Tree c7Ids 0 :=
  (c7_role_promotion c7Tree c7Ids 0).1 c7Pred
    (by
      simp [extractFromTP, c7Tree, buildTP, XBarNode.createSimplePhrase,
        XBarNode.createPhrase, XBarNode.createBar, XBarNode.createHead,
        XBarNode.withRole, XBarNode.specifier, XBarNode.complement,
        XBarNode.headToken, XBarNode.adjuncts, extractFromNP, extractFromTBar,
        extractFromVP, extractAdjuncts, assignRoles, getHeadToken_phrase,
        getHeadToken_bar, c7Pred, c7Ids, XBarNode.category, XBarNode.type,
        featTruthy, tokReads, tokMan, manEntry, Token.create,
        Token.getEffectiveLemma, MeaningRepresentation.setArgument,
        MeaningRepresentation.setFeature, argsGet, argsSet, argsDelete,
        Entity.create, Predicate.create, jsToLower])
    rfl

/-- Round trip of every node of bounded size: strong induction on the
node size, with an inner induction for the adjunct list. -/
theorem roundTripAux : ∀ (k : Nat) (n : XBarNode), sizeOf n ≤ k →
    XBarNode.fromJSON (XBarNode.toJSON n)
      = XBarNode.mapTokens tokenRoundTripped n := by
  intro k
  induction k with
  | zero =>
    intro n h
    cases n with
    | mk ty cat ht comp spec adjs sem =>
      rw [XBarNode.mk.sizeOf_spec] at h
      omega
  | succ k ih =>
    intro n hle
    cases n with
    | mk ty cat ht comp spec adjs sem =>
      rw [XBarNode.mk.sizeOf_spec] at hle
      have hc : sizeOf comp ≤ k := by omega
      have hs : sizeOf spec ≤ k := by omega
      have hadjs : sizeOf adjs ≤ k := by omega
      have hht : Option.map Token.fromJSON (Option.map Token.toJSON ht)
          = Option.map tokenRoundTripped ht := by
        cases ht <;> rfl
      have hcomp : XBarNode.fromJSONOpt (XBarNode.toJSONOpt comp)
          = XBarNode.mapTokensOpt tokenRoundTripped comp := by
        cases comp with
        | none => rfl
        | some c =>
          simp only [XBarNode.toJSONOpt, XBarNode.fromJSONOpt,
            XBarNode.mapTokensOpt]
          rw [ih c (by simp only [Option.some.sizeOf_spec] at hc; omega)]
      have hspec : XBarNode.fromJSONOpt (XBarNode.toJSONOpt spec)
          = XBarNode.mapTokensOpt tokenRoundTripped spec := by
        cases spec with
        | none => rfl
        | some c =>
          simp only [XBarNode.toJSONOpt, XBarNode.fromJSONOpt,
            XBarNode.mapTokensOpt]
          rw [ih c (by simp only [Option.some.sizeOf_spec] at hs; omega)]
      have hlist : ∀ l : List XBarNode, sizeOf l ≤ sizeOf adjs →
          XBarNode.fromJSONList (XBarNode.toJSONList l)
            = XBarNode.mapTokensList tokenRoundTripped l := by
        intro l
        induction l with
        | nil =>
          intro _
          simp only [XBarNode.toJSONList, XBarNode.fromJSONList,
            XBarNode.mapTokensList]
        | cons a as iha =>
          intro hsz
          simp only [List.cons.sizeOf_spec] at hsz
          simp only [XBarNode.toJSONList, XBarNode.fromJSONList,
            XBarNode.mapTokensList]
          rw [ih a (by omega), iha (by omega)]
      cases adjs with
      | nil =>
        rw [XBarNode.toJSON]
        simp only [List.isEmpty_nil, eq_self_iff_true, if_true]
        rw [XBarNode.fromJSON, XBarNode.mapTokens, XBarNode.mk.injEq]
        exact ⟨rfl, rfl, hht, hcomp, hspec, by rw [XBarNode.mapTokensList], rfl⟩
      | cons a rest =>
        rw [XBarNode.toJSON]
        simp only [List.isEmpty_cons, Bool.false_eq_true, if_false]
        rw [XBarNode.fromJSON, XBarNode.mapTokens, XBarNode.mk.injEq]
        exact ⟨rfl, rfl, hht, hcomp, hspec, hlist (a :: rest) le_rfl, rfl⟩

/-- Round trip of an arbitrary node, instantiating the size bound. -/
theorem roundTripEq (n : XBarNode) :
    XBarNode.fromJSON (XBarNode.toJSON n)
      = XBarNode.mapTokens tokenRoundTripped n :=
  roundTripAux (sizeOf n) n le_rfl

/-- C9 (counterexample): the NP tree the builder produces for the single
dictionary-found token "man" does not survive a serialization round trip:
the rebuilt tree's head token has lost its `lexicalEntry` attachment, so
the trees are not equal on the head token. -/
theorem c9_counterexample :
    ∃ n, (buildNP [tokMan]).node = some n
      ∧ (XBarNode.fromJSON (XBarNode.toJSON n)).getHeadToken
          ≠ n.getHeadToken := by
  refine ⟨(XBarNode.createSimplePhrase tokMan PhraseType.NP).withRole
      SemanticRole.NONE, ?_, ?_⟩
  · simp [buildNP, findHead, findSpecifier, specScan, lastIdxWith,
      headPOSMap, specifierPOSMap, tokMan, Token.create, manEntry,
      XBarNode.withAdjuncts, XBarNode.createSimplePhrase, XBarNode.createPhrase,
      XBarNode.createBar, XBarNode.createHead, XBarNode.withRole]
  · rw [roundTripEq]
    simp only [XBarNode.createSimplePhrase, XBarNode.createPhrase,
      XBarNode.createBar, XBarNode.createHead, XBarNode.withRole,
      XBarNode.mapTokens, XBarNode.mapTokensOpt, XBarNode.mapTokensList,
      XBarNode.headToken, Option.map_some', Option.map_none']
    rw [getHeadToken_phrase, getHeadToken_phrase]
    intro h
    have := congrArg (fun o => o.map (fun t => t.lexicalEntry)) h
    simp [tokenRoundTripped, tokMan] at this

/-- C9 (amended): deserialization undoes serialization only up to the
token round trip: `XBarNode.fromJSON (XBarNode.toJSON n)` equals `n` with
every token's `normalized` recomputed from its text and its
`lexicalEntry` attachment dropped; type, category, label position,
specifier/complement placement, adjunct list and semantic annotation are
restored exactly. -/
theorem c9_roundtrip_amended (n : XBarNode) :
    XBarNode.fromJSON (XBarNode.toJSON n)
      = XBarNode.mapTokens tokenRoundTripped n :=
  roundTripEq n

/-- Membership in the traversal of an optional child. -/
theorem mem_nodesOpt (m : XBarNode) (o : Option XBarNode) :
    m ∈ XBarNode.nodesOpt o ↔ ∃ n, o = some n ∧ m ∈ XBarNode.nodesOf n := by
  cases o <;> simp [XBarNode.nodesOpt]

/-- Membership in the traversal of a node list. -/
theorem mem_nodesList (m : XBarNode) (l : List XBarNode) :
    m ∈ XBarNode.nodesList l ↔ ∃ a ∈ l, m ∈ XBarNode.nodesOf a := by
  induction l with
  | nil => simp [XBarNode.nodesList]
  | cons a as ih => simp [XBarNode.nodesList, ih, List.mem_append, or_and_right,
      exists_or, List.mem_cons]

/-- Introduction rule for `noTheme` at a constructed node. -/
theorem noTheme_mk (ty : XBarLevel) (cat : PhraseType) (ht : Option Token)
    (comp spec : Option XBarNode) (adjs : List XBarNode)
    (sem : Option SemanticRole) (hsem : sem ≠ some SemanticRole.THEME)
    (hcomp : ∀ c, comp = some c → noTheme c)
    (hspec : ∀ s, spec = some s → noTheme s)
    (hadjs : ∀ a ∈ adjs, noTheme a) :
    noTheme (XBarNode.mk ty cat ht comp spec adjs sem) := by
  intro m hm
  rw [XBarNode.nodesOf] at hm
  simp only [List.mem_cons, List.mem_append, mem_nodesOpt, mem_nodesList] at hm
  rcases hm with rfl | ⟨⟨s, hs, hmem⟩ | ⟨c, hc, hmem⟩⟩ | ⟨a, ha, hmem⟩
  · simpa [XBarNode.semantic] using hsem
  · exact hspec s hs m hmem
  · exact hcomp c hc m hmem
  · exact hadjs a ha m hmem

/-- `withRole` with a non-`THEME` role preserves `noTheme`. -/
theorem noTheme_withRole (n : XBarNode) (r : SemanticRole)
    (hr : r ≠ SemanticRole.THEME) (h : noTheme n) : noTheme (n.withRole r) := by
  cases n with
  | mk ty cat ht comp spec adjs sem =>
    rw [XBarNode.withRole]
    intro m hm
    rw [XBarNode.nodesOf] at hm
    simp only [List.mem_cons] at hm
    rcases hm with rfl | hm
    · simp only [XBarNode.semantic]
      exact fun e => hr (Option.some.inj e)
    · exact h m (by rw [XBarNode.nodesOf]; exact List.mem_cons_of_mem _ hm)

/-- Node-list traversal distributes over append. -/
theorem nodesList_append (l1 l2 : List XBarNode) :
    XBarNode.nodesList (l1 ++ l2)
      = XBarNode.nodesList l1 ++ XBarNode.nodesList l2 := by
  induction l1 with
  | nil => simp [XBarNode.nodesList]
  | cons a as ih => simp [XBarNode.nodesList, ih]

/-- Appending `noTheme` adjuncts preserves `noTheme`. -/
theorem noTheme_withAdjuncts (n : XBarNode) (more : List XBarNode)
    (h : noTheme n) (hmore : ∀ a ∈ more, noTheme a) :
    noTheme (n.withAdjuncts more) := by
  cases n with
  | mk ty cat ht comp spec adjs sem =>
    rw [XBarNode.withAdjuncts]
    intro m hm
    rw [XBarNode.nodesOf] at hm
    rcases List.mem_cons.mp hm with rfl | hm
    · have hroot := h (XBarNode.mk ty cat ht comp spec adjs sem)
        (by rw [XBarNode.nodesOf]; exact List.mem_cons_self _ _)
      simpa [XBarNode.semantic] using hroot
    · rw [List.mem_append] at hm
      rcases hm with hm | hm
      · exact h m (by rw [XBarNode.nodesOf]
                      exact List.mem_cons_of_mem _ (List.mem_append_left _ hm))
      · rw [nodesList_append, List.mem_append] at hm
        rcases hm with hm | hm
        · exact h m (by rw [XBarNode.nodesOf]
                        exact List.mem_cons_of_mem _ (List.mem_append_right _ hm))
        · rw [mem_nodesList] at hm
          obtain ⟨a, ha, hmem⟩ := hm
          exact hmore a ha m hmem

/-- A terminal head node carries no role. -/
theorem noTheme_createHead (t : Token) (cat : PhraseType) :
    noTheme (XBarNode.createHead t cat) :=
  noTheme_mk _ _ _ _ _ _ _ (by simp) (by simp) (by simp) (by simp)

/-- A bar node is `noTheme` when its complement is. -/
theorem noTheme_createBar (cat : PhraseType) (head : Option XBarNode)
    (comp : Option XBarNode) (hc : ∀ c, comp = some c → noTheme c) :
    noTheme (XBarNode.createBar cat head comp) :=
  noTheme_mk _ _ _ _ _ _ _ (by simp) hc (by simp) (by simp)

/-- A phrase node is `noTheme` when its bar child and specifier are. -/
theorem noTheme_createPhrase (cat : PhraseType) (bar spec : Option XBarNode)
    (hb : ∀ b, bar = some b → noTheme b)
    (hs : ∀ s, spec = some s → noTheme s) :
    noTheme (XBarNode.createPhrase cat bar spec) :=
  noTheme_mk _ _ _ _ _ _ _ (by simp) hb hs (by simp)

/-- The X → X-bar → XP chain over a single token carries no role. -/
theorem noTheme_createSimplePhrase (t : Token) (cat : PhraseType) :
    noTheme (XBarNode.createSimplePhrase t cat) :=
  noTheme_createPhrase _ _ _
    (fun b hb => by
      cases hb
      exact noTheme_createBar _ _ _ (by simp))
    (by simp)

/-- Specifier variant of the factory chain. -/
theorem noTheme_createPhraseWithSpecifier (t : Token) (cat : PhraseType)
    (spec : XBarNode) (hs : noTheme spec) :
    noTheme (XBarNode.createPhraseWithSpecifier t cat spec) :=
  noTheme_createPhrase _ _ _
    (fun b hb => by
      cases hb
      exact noTheme_createBar _ _ _ (by simp))
    (fun s hs2 => by cases hs2; exact hs)

/-- Complement variant of the factory chain. -/
theorem noTheme_createPhraseWithComplement (t : Token) (cat : PhraseType)
    (comp : XBarNode) (hc : noTheme comp) :
    noTheme (XBarNode.createPhraseWithComplement t cat comp) :=
  noTheme_createPhrase _ _ _
    (fun b hb => by
      cases hb
      exact noTheme_createBar _ _ _ (fun c hc2 => by cases hc2; exact hc))
    (by simp)

/-- Full variant of the factory chain. -/
theorem noTheme_createFullPhrase (t : Token) (cat : PhraseType)
    (spec comp : XBarNode) (hs : noTheme spec) (hc : noTheme comp) :
    noTheme (XBarNode.createFullPhrase t cat spec comp) :=
  noTheme_createPhrase _ _ _
    (fun b hb => by
      cases hb
      exact noTheme_createBar _ _ _ (fun c hc2 => by cases hc2; exact hc))
    (fun s hs2 => by cases hs2; exact hs)

/-- `buildTP` never writes `THEME` anywhere: the subject gets `AGENT`, the
tense phrase `NONE`, and the bar and predicate keep their own roles. -/
theorem noTheme_buildTP (subj pred : Option XBarNode) (tm : Option Token)
    (hs : ∀ s, subj = some s → noTheme s)
    (hp : ∀ p, pred = some p → noTheme p) :
    noTheme (buildTP subj pred tm) := by
  rw [buildTP]
  apply noTheme_withRole _ _ (by simp)
  apply noTheme_mk _ _ _ _ _ _ _ (by simp)
  · intro c hc
    cases hc
    exact noTheme_mk _ _ _ _ _ _ _ (by simp) hp (by simp) (by simp)
  · intro s hs2
    simp only [Option.map_eq_some'] at hs2
    obtain ⟨s0, hs0, rfl⟩ := hs2
    exact noTheme_withRole _ _ (by simp) (hs s0 hs0)
  · simp

/-- No builder of the mutual `buildNP`/`buildPP`/`findNP`/`findPP` family
ever writes the `THEME` role (strong induction on the token count). -/
theorem noTheme_builders : ∀ k : Nat,
    (∀ tokens : List Token, 2 * tokens.length + 1 ≤ k →
      ∀ n, (buildNP tokens).node = some n → noTheme n)
    ∧ (∀ tokens : List Token, 2 * tokens.length + 1 ≤ k →
      ∀ n, (buildPP tokens).node = some n → noTheme n)
    ∧ (∀ tokens : List Token, 2 * tokens.length + 2 ≤ k →
      ∀ fr, findNP tokens = some fr → ∀ n, fr.node = some n → noTheme n)
    ∧ (∀ tokens : List Token, 2 * tokens.length + 2 ≤ k →
      ∀ fr, findPP tokens = some fr → ∀ n, fr.node = some n → noTheme n) := by
  intro k
  induction k with
  | zero =>
    exact ⟨fun t h => by omega, fun t h => by omega,
           fun t h => by omega, fun t h => by omega⟩
  | succ k ih =>
    obtain ⟨ihNP, ihPP, ihFNP, ihFPP⟩ := ih
    refine ⟨?_, ?_, ?_, ?_⟩
    · intro tokens hlen n h
      unfold buildNP at h
      split at h
      · exact absurd h (by simp)
      · split at h
        · exact absurd h (by simp)
        · rename_i headToken headIndex
          simp only [Option.some.injEq] at h
          subst h
          apply noTheme_withRole _ _ (by simp)
          apply noTheme_withAdjuncts
          · split
            · rename_i s c hs hc
              refine noTheme_createFullPhrase _ _ _ _ ?_ ?_
              · split at hs
                · split at hs
                  · cases hs
                    exact noTheme_withRole _ _ (by simp)
                      (noTheme_createSimplePhrase _ _)
                  · exact absurd hs (by simp)
                · exact absurd hs (by simp)
              · split at hc
                · split at hc
                  · rename_i hlt fr hfr
                    exact ihFPP _ (by simp [List.length_drop]; omega) fr hfr c hc
                  · exact absurd hc (by simp)
                · exact absurd hc (by simp)
            · rename_i s hs hc
              refine noTheme_createPhraseWithSpecifier _ _ _ ?_
              split at hs
              · split at hs
                · cases hs
                  exact noTheme_withRole _ _ (by simp)
                    (noTheme_createSimplePhrase _ _)
                · exact absurd hs (by simp)
              · exact absurd hs (by simp)
            · rename_i c hs hc
              refine noTheme_createPhraseWithComplement _ _ _ ?_
              split at hc
              · split at hc
                · rename_i hlt fr hfr
                  exact ihFPP _ (by simp [List.length_drop]; omega) fr hfr c hc
                · exact absurd hc (by simp)
              · exact absurd hc (by simp)
            · exact noTheme_createSimplePhrase _ _
          · intro a ha
            simp only [List.mem_map] at ha
            obtain ⟨t, ht, rfl⟩ := ha
            exact noTheme_withRole _ _ (by simp) (noTheme_createSimplePhrase _ _)
    · intro tokens hlen n h
      unfold buildPP at h
      split at h
      · exact absurd h (by simp)
      · split at h
        · exact absurd h (by simp)
        · rename_i ht hi hfh
          split at h
          · rename_i hlt
            split at h
            · rename_i c1 hc1
              simp only [] at h
              split at h
              · rename_i c hc
                simp only [Option.some.injEq] at h
                subst h
                apply noTheme_withRole _ _ (by simp)
                refine noTheme_createPhraseWithComplement _ _ _ ?_
                exact noTheme_withRole _ _ (by simp)
                  (ihFNP _ (by simp [List.length_drop]; omega) c1 hc1 c hc)
              · simp only [Option.some.injEq] at h
                subst h
                exact noTheme_withRole _ _ (by simp) (noTheme_createSimplePhrase _ _)
            · simp only [Option.some.injEq] at h
              subst h
              exact noTheme_withRole _ _ (by simp) (noTheme_createSimplePhrase _ _)
          · simp only [Option.some.injEq] at h
            subst h
            exact noTheme_withRole _ _ (by simp) (noTheme_createSimplePhrase _ _)
    · intro tokens hlen fr hfr n h
      unfold findNP at hfr
      split at hfr
      · exact absurd hfr (by simp)
      · rename_i t0 rest
        simp only [] at hfr
        split at hfr
        all_goals try split at hfr
        all_goals try split at hfr
        all_goals first
          | simp only [reduceCtorEq] at hfr
          | (simp only [Option.some.injEq] at hfr
             subst hfr
             refine ihNP _ ?_ n h
             simp only [List.length_take, List.length_cons] at hlen ⊢
             omega)
    · intro tokens hlen fr hfr n h
      unfold findPP at hfr
      split at hfr
      · exact absurd hfr (by simp)
      · rename_i t0 rest
        simp only [] at hfr
        split at hfr
        all_goals try split at hfr
        all_goals first
          | simp only [reduceCtorEq] at hfr
          | (simp only [Option.some.injEq] at hfr
             subst hfr
             refine ihPP _ ?_ n h
             simp only [List.length_take, List.length_cons] at hlen ⊢
             omega)

/-- `buildNP` never produces a `THEME`-annotated node. -/
theorem noTheme_buildNP (tokens : List Token) (n : XBarNode)
    (h : (buildNP tokens).node = some n) : noTheme n :=
  (noTheme_builders (2 * tokens.length + 1)).1 tokens le_rfl n h

/-- `buildPP` never produces a `THEME`-annotated node. -/
theorem noTheme_buildPP (tokens : List Token) (n : XBarNode)
    (h : (buildPP tokens).node = some n) : noTheme n :=
  (noTheme_builders (2 * tokens.length + 1)).2.1 tokens le_rfl n h

/-- `findPP` never produces a `THEME`-annotated node. -/
theorem noTheme_findPP (tokens : List Token) (fr : FindResult)
    (hfr : findPP tokens = some fr) (n : XBarNode) (h : fr.node = some n) :
    noTheme n :=
  (noTheme_builders (2 * tokens.length + 2)).2.2.2 tokens le_rfl fr hfr n h

/-- `buildAP` never produces a `THEME`-annotated node. -/
theorem noTheme_buildAP (tokens : List Token) (n : XBarNode)
    (h : (buildAP tokens).node = some n) : noTheme n := by
  unfold buildAP at h
  split at h
  · exact absurd h (by simp)
  · split at h
    · exact absurd h (by simp)
    · rename_i ht hi hfh
      simp only [Option.some.injEq] at h
      subst h
      apply noTheme_withRole _ _ (by simp)
      have hs : ∀ s, (match findSpecifier tokens hi PhraseType.AP with
          | some (specToks, _) =>
            match specToks.head? with
            | some advToken => some (XBarNode.createSimplePhrase advToken PhraseType.AdvP)
            | none => none
          | none => none) = some s → noTheme s := by
        intro s hsEq
        split at hsEq
        · split at hsEq
          · cases hsEq
            exact noTheme_createSimplePhrase _ _
          · exact absurd hsEq (by simp)
        · exact absurd hsEq (by simp)
      have hc : ∀ c, (if hi + 1 < tokens.length then
            match findPP (tokens.drop (hi + 1)) with
            | some fr => fr.node
            | none => none
          else none) = some c → noTheme c := by
        intro c hcEq
        split at hcEq
        · split at hcEq
          · rename_i fr hfr
            exact noTheme_findPP _ fr hfr c hcEq
          · exact absurd hcEq (by simp)
        · exact absurd hcEq (by simp)
      split
      · rename_i s c hsEq hcEq
        exact noTheme_createFullPhrase _ _ _ _ (hs s hsEq) (hc c hcEq)
      · rename_i s hsEq hcEq
        exact noTheme_createPhraseWithSpecifier _ _ _ (hs s hsEq)
      · rename_i c hsEq hcEq
        exact noTheme_createPhraseWithComplement _ _ _ (hc c hcEq)
      · exact noTheme_createSimplePhrase _ _

/-- A token list headed by a verb always yields a VP head. -/
theorem findHead_cons_verb (p : Token) (l : List Token)
    (hp : p.pos = POS.VERB) :
    ∃ pr, findHead (p :: l) PhraseType.VP = some pr := by
  unfold findHead
  cases h2 : lastIdxWith (fun t => (headPOSMap PhraseType.VP).contains t.pos)
      (p :: l) with
  | none =>
    rw [lastIdxWith_eq_none] at h2
    have hp2 := h2 p (List.mem_cons_self _ _)
    simp [headPOSMap, hp] at hp2
  | some i =>
    obtain ⟨⟨a, ha, -⟩, -⟩ := (lastIdxWith_eq_some _ _ _).mp h2
    exact ⟨(a, i), by simp [ha]⟩

/-- `buildVP` throws its ReferenceError on any verb-headed token list. -/
theorem buildVP_cons_verb (p : Token) (l : List Token)
    (hp : p.pos = POS.VERB) :
    buildVP (p :: l) = Except.error tdzError := by
  unfold buildVP
  rw [if_neg (by simp)]
  obtain ⟨pr, hpr⟩ := findHead_cons_verb p l hp
  rw [hpr]
  simp [tdzError]

/-- The predicate token the Action splitter returns is a verb. -/
theorem actionExtractComponents_verb (tokens : List Token)
    (c : ActionComponents) (h : actionExtractComponents tokens = some c) :
    c.predicate.pos = POS.VERB := by
  unfold actionExtractComponents at h
  split at h
  · exact absurd h (by simp)
  · rename_i vi hvi
    split at h
    · exact absurd h (by simp)
    · rename_i vt hvt
      simp only [Option.some.injEq] at h
      subst h
      obtain ⟨⟨a, ha, hpa⟩, -⟩ := (firstIdxWith_eq_some _ _ _).mp hvi
      rw [hvt] at ha
      cases ha
      simpa using hpa

/-- The Action pattern can never deliver a tree: `buildVP` throws first. -/
theorem actionBuildTree_no_tree (c : ActionComponents)
    (hv : c.predicate.pos = POS.VERB) (t : XBarNode) :
    actionBuildTree c ≠ Except.ok (some t) := by
  unfold actionBuildTree
  simp only [Bind.bind, Except.bind]
  split
  · simp [pure, Except.pure]
  · rw [buildVP_cons_verb c.predicate _ hv]
    simp

/-- A successful copular pattern result holds a tree built by the
pattern's builder, so it inherits the builder's `noTheme` guarantee. -/
theorem tryCopularPattern_tree (name : String) (matched : Bool)
    (extract : Option CopularComponents)
    (build : CopularComponents → Option XBarNode) (pat : PatternName)
    (errors : List String) (res : MatchResult)
    (h : (tryCopularPattern name matched extract build pat errors).1 = some res)
    (hbuild : ∀ comps t, build comps = some t → noTheme t) :
    ∃ t, res.tree = some t ∧ noTheme t := by
  unfold tryCopularPattern at h
  split at h
  · split at h
    · exact absurd h (by simp)
    · split at h
      · rename_i tree htree
        simp only [Option.some.injEq] at h
        subst h
        exact ⟨tree, rfl, hbuild _ tree htree⟩
      · exact absurd h (by simp)
  · exact absurd h (by simp)

/-- `propertyBuildTree` only builds `noTheme` trees. -/
theorem noTheme_propertyBuildTree (c : CopularComponents) (t : XBarNode)
    (h : propertyBuildTree c = some t) : noTheme t := by
  unfold propertyBuildTree at h
  split at h
  · exact absurd h (by simp)
  · rename_i subj hsubj
    split at h
    · exact absurd h (by simp)
    · rename_i ap hap
      simp only [Option.some.injEq] at h
      subst h
      exact noTheme_buildTP _ _ _
        (fun s hs => by cases hs; exact noTheme_buildNP _ _ hsubj)
        (fun p hp => by cases hp; exact noTheme_buildAP _ _ hap)

/-- `identityBuildTree` only builds `noTheme` trees. -/
theorem noTheme_identityBuildTree (c : CopularComponents) (t : XBarNode)
    (h : identityBuildTree c = some t) : noTheme t := by
  unfold identityBuildTree at h
  split at h
  · exact absurd h (by simp)
  · rename_i subj hsubj
    split at h
    · exact absurd h (by simp)
    · rename_i obj hobj
      simp only [Option.some.injEq] at h
      subst h
      exact noTheme_buildTP _ _ _
        (fun s hs => by cases hs; exact noTheme_buildNP _ _ hsubj)
        (fun p hp => by cases hp; exact noTheme_buildNP _ _ hobj)

/-- `locationBuildTree` only builds `noTheme` trees. -/
theorem noTheme_locationBuildTree (c : CopularComponents) (t : XBarNode)
    (h : locationBuildTree c = some t) : noTheme t := by
  unfold locationBuildTree at h
  split at h
  · exact absurd h (by simp)
  · rename_i subj hsubj
    split at h
    · exact absurd h (by simp)
    · rename_i pp hpp
      simp only [Option.some.injEq] at h
      subst h
      exact noTheme_buildTP _ _ _
        (fun s hs => by cases hs; exact noTheme_buildNP _ _ hsubj)
        (fun p hp => by cases hp; exact noTheme_buildPP _ _ hpp)

/-- Every tree `matchPattern` returns is `noTheme`. -/
theorem noTheme_matchPattern (tokens : List Token) (res : MatchResult)
    (tree : XBarNode) (h : matchPattern tokens = Except.ok res)
    (htr : res.tree = some tree) : noTheme tree := by
  unfold matchPattern at h
  split at h
  · simp only [Except.ok.injEq] at h
    subst h
    exact absurd htr (by simp)
  · split at h
    · rename_i r1 e1 hr1
      split at h
      · rename_i res1
        simp only [Except.ok.injEq] at h
        subst h
        obtain ⟨t, htr2, hnt⟩ := tryCopularPattern_tree _ _ _ _ _ _ _
          (by rw [hr1]) noTheme_propertyBuildTree
        rw [htr] at htr2
        cases htr2
        exact hnt
      · split at h
        · rename_i r2 e2 hr2
          split at h
          · rename_i res2
            simp only [Except.ok.injEq] at h
            subst h
            obtain ⟨t, htr2, hnt⟩ := tryCopularPattern_tree _ _ _ _ _ _ _
              (by rw [hr2]) noTheme_identityBuildTree
            rw [htr] at htr2
            cases htr2
            exact hnt
          · split at h
            · rename_i r3 e3 hr3
              split at h
              · rename_i res3
                simp only [Except.ok.injEq] at h
                subst h
                obtain ⟨t, htr2, hnt⟩ := tryCopularPattern_tree _ _ _ _ _ _ _
                  (by rw [hr3]) noTheme_locationBuildTree
                rw [htr] at htr2
                cases htr2
                exact hnt
              · simp only [Bind.bind, Except.bind] at h
                split at h
                · split at h
                  · simp only [pure, Except.pure, Except.ok.injEq] at h
                    subst h
                    exact absurd htr (by simp)
                  · rename_i comps hcomps
                    cases ha : actionBuildTree comps with
                    | error e => rw [ha] at h; exact absurd h (by simp)
                    | ok tree? =>
                      rw [ha] at h
                      cases tree? with
                      | some t2 =>
                        exact absurd ha
                          (actionBuildTree_no_tree comps
                            (actionExtractComponents_verb tokens comps hcomps) t2)
                      | none =>
                        simp only [pure, Except.pure, Except.ok.injEq] at h
                        subst h
                        exact absurd htr (by simp)
                · simp only [pure, Except.pure, Except.ok.injEq] at h
                  subst h
                  exact absurd htr (by simp)

/-- C10: `buildTP` annotates the subject specifier with the `AGENT` role no
matter what kind of phrase the predicate node is, so the subject of the
copular Property/Identity/Location clauses carries `AGENT` at the tree
level; and no tree `matchPattern` ever returns carries the provisional
`THEME` role on any node — `THEME` exists only in the extractor's meaning
record. -/
theorem c10_subject_agent_theme_never_in_tree :
    (∀ subj pred tm, (buildTP (some subj) pred tm).specifier
        = some (subj.withRole SemanticRole.AGENT))
    ∧ (∀ tokens res tree, matchPattern tokens = Except.ok res →
        res.tree = some tree →
        ∀ m ∈ XBarNode.nodesOf tree, m.semantic ≠ some SemanticRole.THEME) := by
  constructor
  · intro subj pred tm
    rfl
  · intro tokens res tree h htr m hm
    exact noTheme_matchPattern tokens res tree h htr m hm

/-- The Property pattern matches "The apple is red" and builds the
expected tree. -/
theorem matchPattern_c10Tokens :
    matchPattern c10Tokens = Except.ok c10Res := by
  simp [matchPattern, tryCopularPattern, propertyMatch,
    copularExtractComponents, propertyBuildTree, buildNP, buildAP,
    findHead, findSpecifier, specScan, lastIdxWith, firstIdxWith,
    headPOSMap, specifierPOSMap, c10Tokens, c10Res, c10Tree, c10SubjNP,
    tokThe, tokApple, tokIs, tokRed, Token.create, appleEntry,
    XBarNode.withAdjuncts, XBarNode.withRole,
    XBarNode.createSimplePhrase, XBarNode.createPhrase,
    XBarNode.createBar, XBarNode.createHead,
    XBarNode.createPhraseWithSpecifier, buildTP]

/-- Witness for C10: the `AGENT` annotation at a concrete subject, and the
no-`THEME` guarantee at the tree matched for "The apple is red". -/
theorem c10_witness :
    ((buildTP (some (XBarNode.createSimplePhrase tokMan PhraseType.NP))
          none none).specifier
        = some ((XBarNode.createSimplePhrase tokMan PhraseType.NP).withRole
          SemanticRole.AGENT))
    ∧ (∀ m ∈ XBarNode.nodesOf c10Tree,
        m.semantic ≠ some SemanticRole.THEME) :=
  ⟨c10_subject_agent_theme_never_in_tree.1 _ none none,
   c10_subject_agent_theme_never_in_tree.2 c10Tokens c10Res c10Tree
     matchPattern_c10Tokens rfl⟩

/-- `argsGet` after erasure reads the erased slot. -/
theorem argsGet_eraseArgsIds (a : Args) (R : SemanticRole) :
    argsGet (eraseArgsIds a) R = (argsGet a R).map eraseArgVal := by
  induction a with
  | nil => rfl
  | cons p rest ih =>
    by_cases hp : p.1 = R
    · simp [argsGet, eraseArgsIds, List.find?_cons_of_pos, hp]
    · unfold argsGet eraseArgsIds at ih ⊢
      rw [List.map_cons, List.find?_cons_of_neg _ (by simpa using hp),
        List.find?_cons_of_neg _ (by simpa using hp)]
      exact ih

/-- `argsSet` commutes with id erasure. -/
theorem argsSet_eraseArgsIds (a : Args) (R : SemanticRole) (v : ArgVal) :
    eraseArgsIds (argsSet a R v) = argsSet (eraseArgsIds a) R (eraseArgVal v) := by
  unfold argsSet
  have hany : (eraseArgsIds a).any (fun p => p.1 = R) = a.any (fun p => p.1 = R) := by
    unfold eraseArgsIds
    rw [List.any_map]
    rfl
  rw [hany]
  split
  · unfold eraseArgsIds
    rw [List.map_map, List.map_map]
    apply List.map_congr_left
    intro p hp
    by_cases h : p.1 = R <;> simp [h]
  · unfold eraseArgsIds
    simp

/-- `argsDelete` commutes with id erasure. -/
theorem argsDelete_eraseArgsIds (a : Args) (R : SemanticRole) :
    eraseArgsIds (argsDelete a R) = argsDelete (eraseArgsIds a) R := by
  unfold argsDelete eraseArgsIds
  rw [List.filter_map]
  rfl

/-- `setArgument` commutes with id erasure. -/
theorem setArgument_erase (m : MeaningRepresentation) (R : SemanticRole)
    (v : ArgVal) :
    eraseMeaningIds (m.setArgument R v)
      = (eraseMeaningIds m).setArgument R (eraseArgVal v) := by
  simp [eraseMeaningIds, MeaningRepresentation.setArgument, argsSet_eraseArgsIds]

/-- `setFeature` commutes with id erasure. -/
theorem setFeature_erase (m : MeaningRepresentation) (k : String) (v : FeatVal) :
    eraseMeaningIds (m.setFeature k v) = (eraseMeaningIds m).setFeature k v := by
  simp [eraseMeaningIds, MeaningRepresentation.setFeature]

/-- Id erasure keeps the predicate. -/
theorem predicate_erase (m : MeaningRepresentation) :
    (eraseMeaningIds m).predicate = m.predicate := rfl

/-- Id erasure keeps the sentence features. -/
theorem features_erase (m : MeaningRepresentation) :
    (eraseMeaningIds m).features = m.features := rfl

/-- `assignRoles` commutes with id erasure. -/
theorem assignRoles_erase (m : MeaningRepresentation) :
    eraseMeaningIds (assignRoles m) = assignRoles (eraseMeaningIds m) := by
  unfold assignRoles
  rw [predicate_erase]
  cases m.predicate with
  | none => rfl
  | some p =>
    simp only []
    split
    · rw [show (eraseMeaningIds m).args = eraseArgsIds m.args from rfl]
      rw [argsGet_eraseArgsIds]
      cases ht : argsGet m.args SemanticRole.THEME with
      | none => rfl
      | some theme =>
        simp only [Option.map_some']
        simp [eraseMeaningIds, argsSet_eraseArgsIds, argsDelete_eraseArgsIds]
    · rfl

/-- The entity `extractFromNP` finds is, after id erasure, independent of
the id source and counter (the id is the only ambient-dependent field). -/
theorem extractFromNP_erase (n : XBarNode) (ids1 ids2 : Nat → String)
    (k1 k2 : Nat) :
    ((extractFromNP n ids1 k1).1).map eraseEntityId
      = ((extractFromNP n ids2 k2).1).map eraseEntityId := by
  unfold extractFromNP
  cases hht : n.getHeadToken with
  | none => rfl
  | some ht =>
    simp only [Option.map_some']
    repeat' split
    all_goals simp_all [eraseEntityId, Entity.create]

/-- One adjunct step preserves id-erased equality of meanings across two
runs with different id sources. -/
theorem extractAdjunct_erase (n : XBarNode) (m1 m2 : MeaningRepresentation)
    (ids1 ids2 : Nat → String) (k1 k2 : Nat)
    (hm : eraseMeaningIds m1 = eraseMeaningIds m2) :
    eraseMeaningIds ((extractAdjunct n m1 ids1 k1).1)
      = eraseMeaningIds ((extractAdjunct n m2 ids2 k2).1) := by
  have hfeat : m1.features = m2.features := by
    rw [← features_erase m1, ← features_erase m2, hm]
  unfold extractAdjunct
  split
  · split
    · rename_i h comp hh hc
      cases h1 : extractFromNP comp ids1 k1 with
      | mk e1 k1' =>
        cases h2 : extractFromNP comp ids2 k2 with
        | mk e2 k2' =>
          have hne := extractFromNP_erase comp ids1 ids2 k1 k2
          rw [h1, h2] at hne
          simp only [] at hne
          cases e1 with
          | none =>
            cases e2 with
            | none => exact hm
            | some e => simp at hne
          | some e1v =>
            cases e2 with
            | none => simp at hne
            | some e2v =>
              simp only [Option.map_some', Option.some.injEq] at hne
              simp only []
              rw [setArgument_erase, setArgument_erase, hm]
              simp [eraseArgVal, hne]
    · exact hm
  · split
    · split
      · simp only [MeaningRepresentation.getFeature, hfeat]
        rw [setFeature_erase, setFeature_erase, hm]
      · exact hm
    · exact hm

/-- The adjunct fold preserves id-erased equality. -/
theorem extractAdjuncts_erase (adjs : List XBarNode)
    (m1 m2 : MeaningRepresentation) (ids1 ids2 : Nat → String) (k1 k2 : Nat)
    (hm : eraseMeaningIds m1 = eraseMeaningIds m2) :
    eraseMeaningIds ((extractAdjuncts adjs m1 ids1 k1).1)
      = eraseMeaningIds ((extractAdjuncts adjs m2 ids2 k2).1) := by
  induction adjs generalizing m1 m2 k1 k2 with
  | nil => exact hm
  | cons a rest ih =>
    unfold extractAdjuncts
    exact ih _ _ _ _ (extractAdjunct_erase a m1 m2 ids1 ids2 k1 k2 hm)

/-- Id-erased equality of two meanings gives equality of every field but
the argument ids. -/
theorem erase_fields (m1 m2 : MeaningRepresentation)
    (hm : eraseMeaningIds m1 = eraseMeaningIds m2) :
    m1.type = m2.type ∧ m1.predicate = m2.predicate
    ∧ eraseArgsIds m1.args = eraseArgsIds m2.args
    ∧ m1.features = m2.features := by
  have ht := congrArg MeaningRepresentation.type hm
  have hp := congrArg MeaningRepresentation.predicate hm
  have ha := congrArg MeaningRepresentation.args hm
  have hf := congrArg MeaningRepresentation.features hm
  exact ⟨ht, hp, ha, hf⟩

/-- Updating the predicate to a common value preserves id-erased
equality. -/
theorem erase_withPredicate (m1 m2 : MeaningRepresentation)
    (p : Option Predicate) (hm : eraseMeaningIds m1 = eraseMeaningIds m2) :
    eraseMeaningIds { m1 with predicate := p }
      = eraseMeaningIds { m2 with predicate := p } := by
  obtain ⟨ht, -, ha, hf⟩ := erase_fields m1 m2 hm
  simp [eraseMeaningIds, ht, ha, hf]

/-- `extractFromVP` preserves id-erased equality. -/
theorem extractFromVP_erase (n : XBarNode) (m1 m2 : MeaningRepresentation)
    (ids1 ids2 : Nat → String) (k1 k2 : Nat)
    (hm : eraseMeaningIds m1 = eraseMeaningIds m2) :
    eraseMeaningIds ((extractFromVP n m1 ids1 k1).1)
      = eraseMeaningIds ((extractFromVP n m2 ids2 k2).1) := by
  unfold extractFromVP
  cases hht : n.getHeadToken with
  | none => exact hm
  | some ht =>
    simp only []
    split
    · rename_i comp hcomp
      cases h1 : extractFromNP comp ids1 k1 with
      | mk e1 k1' =>
        cases h2 : extractFromNP comp ids2 k2 with
        | mk e2 k2' =>
          have hne := extractFromNP_erase comp ids1 ids2 k1 k2
          rw [h1, h2] at hne
          simp only [] at hne
          cases e1 with
          | none =>
            cases e2 with
            | none =>
              exact extractAdjuncts_erase _ _ _ _ _ _ _
                (erase_withPredicate m1 m2 _ hm)
            | some e => simp at hne
          | some e1v =>
            cases e2 with
            | none => simp at hne
            | some e2v =>
              simp only [Option.map_some', Option.some.injEq] at hne
              simp only []
              apply extractAdjuncts_erase
              rw [setArgument_erase, setArgument_erase,
                erase_withPredicate m1 m2 _ hm]
              simp [eraseArgVal, hne]
    · exact extractAdjuncts_erase _ _ _ _ _ _ _
        (erase_withPredicate m1 m2 _ hm)

/-- `extractFromAP` preserves id-erased equality. -/
theorem extractFromAP_erase (n : XBarNode) (m1 m2 : MeaningRepresentation)
    (hm : eraseMeaningIds m1 = eraseMeaningIds m2) :
    eraseMeaningIds (extractFromAP n m1) = eraseMeaningIds (extractFromAP n m2) := by
  unfold extractFromAP
  split
  · exact hm
  · exact erase_withPredicate m1 m2 _ hm

/-- `extractIdentityPredicate` preserves id-erased equality. -/
theorem extractIdentityPredicate_erase (n : XBarNode)
    (m1 m2 : MeaningRepresentation) (ids1 ids2 : Nat → String) (k1 k2 : Nat)
    (hm : eraseMeaningIds m1 = eraseMeaningIds m2) :
    eraseMeaningIds ((extractIdentityPredicate n m1 ids1 k1).1)
      = eraseMeaningIds ((extractIdentityPredicate n m2 ids2 k2).1) := by
  unfold extractIdentityPredicate
  cases hht : n.getHeadToken with
  | none => exact hm
  | some ht =>
    simp only []
    cases h1 : extractFromNP n ids1 k1 with
    | mk e1 k1' =>
      cases h2 : extractFromNP n ids2 k2 with
      | mk e2 k2' =>
        have hne := extractFromNP_erase n ids1 ids2 k1 k2
        rw [h1, h2] at hne
        simp only [] at hne
        cases e1 with
        | none =>
          cases e2 with
          | none => exact erase_withPredicate m1 m2 _ hm
          | some e => simp at hne
        | some e1v =>
          cases e2 with
          | none => simp at hne
          | some e2v =>
            simp only [Option.map_some', Option.some.injEq] at hne
            simp only []
            rw [setArgument_erase, setArgument_erase,
              erase_withPredicate m1 m2 _ hm]
            simp [eraseArgVal, hne]

/-- `extractFromTBar` preserves id-erased equality. -/
theorem extractFromTBar_erase (n : XBarNode) (m1 m2 : MeaningRepresentation)
    (ids1 ids2 : Nat → String) (k1 k2 : Nat)
    (hm : eraseMeaningIds m1 = eraseMeaningIds m2) :
    eraseMeaningIds ((extractFromTBar n m1 ids1 k1).1)
      = eraseMeaningIds ((extractFromTBar n m2 ids2 k2).1) := by
  unfold extractFromTBar
  cases hhd : n.headToken with
  | none =>
    simp only []
    cases hc : n.complement with
    | none => exact hm
    | some c =>
      simp only []
      split_ifs
      · exact extractFromVP_erase _ _ _ _ _ _ _ hm
      · exact extractFromAP_erase _ _ _ hm
      · exact extractIdentityPredicate_erase _ _ _ _ _ _ _ hm
      · exact hm
  | some h =>
    simp only []
    cases hc : n.complement with
    | none => rw [setFeature_erase, setFeature_erase, hm]
    | some c =>
      simp only []
      split_ifs
      · exact extractFromVP_erase _ _ _ _ _ _ _
          (by rw [setFeature_erase, setFeature_erase, hm])
      · exact extractFromAP_erase _ _ _
          (by rw [setFeature_erase, setFeature_erase, hm])
      · exact extractIdentityPredicate_erase _ _ _ _ _ _ _
          (by rw [setFeature_erase, setFeature_erase, hm])
      · rw [setFeature_erase, setFeature_erase, hm]

/-- `extractFromTP` preserves id-erased equality across two runs. -/
theorem extractFromTP_erase (n : XBarNode) (ids1 ids2 : Nat → String)
    (k1 k2 : Nat) :
    eraseMeaningIds ((extractFromTP n ids1 k1).1)
      = eraseMeaningIds ((extractFromTP n ids2 k2).1) := by
  unfold extractFromTP
  simp only []
  have hstep1 : ∀ m0 : MeaningRepresentation,
      eraseMeaningIds ((match n.specifier with
        | some sp =>
          match extractFromNP sp ids1 k1 with
          | (some subjectEntity, k') =>
            (m0.setArgument SemanticRole.THEME (ArgVal.one subjectEntity), k')
          | (none, k') => (m0, k')
        | none => (m0, k1) : MeaningRepresentation × Nat).1)
      = eraseMeaningIds ((match n.specifier with
        | some sp =>
          match extractFromNP sp ids2 k2 with
          | (some subjectEntity, k') =>
            (m0.setArgument SemanticRole.THEME (ArgVal.one subjectEntity), k')
          | (none, k') => (m0, k')
        | none => (m0, k2) : MeaningRepresentation × Nat).1) := by
    intro m0
    cases n.specifier with
    | none => rfl
    | some sp =>
      simp only []
      cases h1 : extractFromNP sp ids1 k1 with
      | mk e1 k1' =>
        cases h2 : extractFromNP sp ids2 k2 with
        | mk e2 k2' =>
          have hne := extractFromNP_erase sp ids1 ids2 k1 k2
          rw [h1, h2] at hne
          simp only [] at hne
          cases e1 with
          | none =>
            cases e2 with
            | none => rfl
            | some e => simp at hne
          | some e1v =>
            cases e2 with
            | none => simp at hne
            | some e2v =>
              simp only [Option.map_some', Option.some.injEq] at hne
              simp only []
              rw [setArgument_erase, setArgument_erase]
              simp [eraseArgVal, hne]
  have h1 := hstep1 ⟨SentenceType.DECLARATIVE, none, [], []⟩
  cases n.complement with
  | none =>
    rw [assignRoles_erase, assignRoles_erase, h1]
  | some c =>
    rw [assignRoles_erase, assignRoles_erase,
      extractFromTBar_erase c _ _ ids1 ids2 _ _ h1]

/-- `extract` preserves id-erased equality across two runs. -/
theorem extract_erase (tree : XBarNode) (ids1 ids2 : Nat → String)
    (k1 k2 : Nat) :
    ((extract tree ids1 k1).1).map eraseMeaningIds
      = ((extract tree ids2 k2).1).map eraseMeaningIds := by
  unfold extract
  split
  · simp only [Option.map_some']
    exact congrArg some (extractFromTP_erase tree ids1 ids2 k1 k2)
  · split
    · simp only [Option.map_some']
      exact congrArg some (extractFromTP_erase _ ids1 ids2 k1 k2)
    · rfl

/-- C3 (amended): the tree stage of the pipeline consults no ambient
state, and two runs of the meaning stage on the same tokens agree on
everything except the generated entity ids: after erasing every entity's
id the two meanings (and the error outcome) are equal, for any two id
sources and counters modelling the two runs' `Date.now`/`Math.random`
draws. -/
theorem c3_determinism_amended (tokens : List Token)
    (ids1 ids2 : Nat → String) (k1 k2 : Nat) :
    (pipelineMeaning tokens ids1 k1).map (Option.map eraseMeaningIds)
      = (pipelineMeaning tokens ids2 k2).map (Option.map eraseMeaningIds) := by
  unfold pipelineMeaning
  cases matchPattern tokens with
  | error e => rfl
  | ok res =>
    simp only []
    cases res.tree with
    | none => rfl
    | some tree =>
      simp only [Except.map]
      exact congrArg Except.ok (extract_erase tree ids1 ids2 k1 k2)

/-- C3 (counterexample): two runs of the pipeline on the tagged tokens of
"The apple is red" whose ambient `Date.now`/`Math.random` draws differ
(modelled by two id sources) yield different meaning representations, so
the meanings are not byte-identical: the subject entity's id differs. -/
theorem c3_counterexample :
    pipelineMeaning c10Tokens (fun _ => "id_a") 0
      ≠ pipelineMeaning c10Tokens (fun _ => "id_b") 0 := by
  have hA : pipelineMeaning c10Tokens (fun _ => "id_a") 0
      = Except.ok ((extract c10Tree (fun _ => "id_a") 0).1) := by
    unfold pipelineMeaning
    rw [matchPattern_c10Tokens]
    rfl
  have hB : pipelineMeaning c10Tokens (fun _ => "id_b") 0
      = Except.ok ((extract c10Tree (fun _ => "id_b") 0).1) := by
    unfold pipelineMeaning
    rw [matchPattern_c10Tokens]
    rfl
  rw [hA, hB]
  intro h
  have h2 := congrArg (fun r => match r with
    | Except.ok (some m) => argsGet m.args SemanticRole.THEME
    | _ => none) h
  simp only [] at h2
  simp [extract, c10Tree, c10SubjNP, buildTP, XBarNode.withRole,
    XBarNode.withAdjuncts, XBarNode.createPhraseWithSpecifier,
    XBarNode.createSimplePhrase, XBarNode.createPhrase, XBarNode.createBar,
    XBarNode.createHead, XBarNode.category, XBarNode.specifier,
    XBarNode.complement, XBarNode.headToken, XBarNode.adjuncts,
    extractFromTP, extractFromNP, extractFromTBar, extractFromAP,
    extractAdjuncts, assignRoles, getHeadToken_phrase, getHeadToken_bar,
    Entity.create, Predicate.create, Token.create, Token.getFeature,
    Token.getEffectiveLemma, tokThe, tokApple, tokIs, tokRed, appleEntry,
    MeaningRepresentation.setArgument, MeaningRepresentation.setFeature,
    argsGet, argsSet, argsDelete, jsToLower, featSet, featGet] at h2
